import Mathlib

/-!
# Verification of the chip8 interpreter core (`src/main.rs`)

Shallow embedding of the interpreter's machine state and its
fetch-decode-execute step (`Chip8State::update`), with theorems checking
the natural-language specification's claims against it.

Conventions of the embedding:
* machine integers are `Nat` with explicit `% 2^w` where wrap-around can
  occur (`u8` results are reduced `% 256`, the `u16` index register add in
  `Fx1E` is reduced `% 65536`);
* arrays (`ram`, the register file `v`, the display pixels, the stack
  buffer) are total functions from `Nat`, written with the pointwise
  updater `updf`;
* every Rust `panic!` / out-of-bounds index / failed `unwrap` is modelled
  by returning `none`: `Chip8State.update` returns `Option Chip8State`;
* the thread-local random generator used by `Cxnn` is passed to the step
  as an explicit oracle byte `rand` (the spec asks for exactly such a
  pluggable source).
-/

/-- Pointwise function update, modelling a single array store `a[k] = v`. -/
def updf {α : Type} (f : Nat → α) (k : Nat) (a : α) : Nat → α :=
  fun j => if j = k then a else f j

/-- `STACK_CAPACITY` from the source. -/
def STACK_CAPACITY : Nat := 64

/-- `TIMER_DECREMENT_INTERVAL_US` from the source. -/
def TIMER_DECREMENT_INTERVAL_US : Nat := 16667

/-- `DISPLAY_WIDTH` from the source. -/
def DISPLAY_WIDTH : Nat := 64

/-- `DISPLAY_HEIGHT` from the source. -/
def DISPLAY_HEIGHT : Nat := 32

/-- `Chip8Stack`: fixed-capacity LIFO of return addresses.  `buffer` is the
backing array (entries at positions `≥ top` are junk), `top` the number of
live entries. -/
structure Chip8Stack where
  buffer : Nat → Nat
  top : Nat

/-- `Chip8Stack::push`: fails (Rust `panic!`) when `top == STACK_CAPACITY`. -/
def Chip8Stack.push (st : Chip8Stack) (value : Nat) : Option Chip8Stack :=
  if st.top = STACK_CAPACITY then none
  else some { buffer := updf st.buffer st.top value, top := st.top + 1 }

/-- `Chip8Stack::pop`: fails (Rust `panic!`) when `top == 0`. -/
def Chip8Stack.pop (st : Chip8Stack) : Option (Nat × Chip8Stack) :=
  if st.top = 0 then none
  else some (st.buffer (st.top - 1), { st with top := st.top - 1 })

/-- Iterated `push` (used to state the capacity claim). -/
def pushMany (st : Chip8Stack) : List Nat → Option Chip8Stack
  | [] => some st
  | val :: rest =>
    match st.push val with
    | none => none
    | some st' => pushMany st' rest

/-- `Chip8Keypad`: current and previous press state of the 16 keys. -/
structure Chip8Keypad where
  pressed : Nat → Bool
  pressed_last : Nat → Bool

/-- `Chip8State`: the machine state (the `rng` field of the Rust struct is
replaced by the explicit oracle byte passed to `update`). -/
@[ext]
structure Chip8State where
  ram : Nat → Nat
  /-- Program counter. -/
  pc : Nat
  /-- Index register. -/
  i : Nat
  /-- General purpose registers. -/
  v : Nat → Nat
  delay_timer : Nat
  sound_timer : Nat
  stack : Chip8Stack
  /-- Display pixels, row-major: pixel (x, y) is at index `x + y * 64`. -/
  display : Nat → Bool
  /-- If true, stick to the cosmac quirks. -/
  cosmac_quirks : Bool
  /-- Used to update timers. -/
  elapsed_us : Nat

/-- Instruction decode, as in the source: opcode family `(instr & 0xf000) >> 12`. -/
def opOf (instr : Nat) : Nat := (instr &&& 0xf000) >>> 12

/-- Decode `x = (instr & 0x0f00) >> 8`. -/
def xOf (instr : Nat) : Nat := (instr &&& 0x0f00) >>> 8

/-- Decode `y = (instr & 0x00f0) >> 4`. -/
def yOf (instr : Nat) : Nat := (instr &&& 0x00f0) >>> 4

/-- Decode `n = instr & 0x000f`. -/
def nOf (instr : Nat) : Nat := instr &&& 0x000f

/-- Decode `nn = instr & 0x00ff`. -/
def nnOf (instr : Nat) : Nat := instr &&& 0x00ff

/-- Decode `nnn = instr & 0x0fff`. -/
def nnnOf (instr : Nat) : Nat := instr &&& 0x0fff

/-- One structural unrolling of the timer-update `while` loop: while the
accumulator is at least the interval, decrement each timer that is
positive and subtract the interval.  The first argument is fuel bounding
the number of iterations; every iteration removes at least 16667 ≥ 1 from
the accumulator, so fuel equal to the initial accumulator always
suffices (see `timerLoopGo_eq`). -/
def timerLoopGo : Nat → Nat → Nat → Nat → Nat × Nat × Nat
  | 0, d, s, e => (d, s, e)
  | fuel + 1, d, s, e =>
    if TIMER_DECREMENT_INTERVAL_US ≤ e then
      timerLoopGo fuel (if 0 < d then d - 1 else d) (if 0 < s then s - 1 else s)
        (e - TIMER_DECREMENT_INTERVAL_US)
    else (d, s, e)

/-- The timer-update `while` loop at the top of `Chip8State::update`,
run to completion. -/
def timerLoop (d s e : Nat) : Nat × Nat × Nat :=
  timerLoopGo e d s e

/-- The inner `'xloop` of the `Dxyn` sprite draw: the first argument is the
number of bits still to process (the Rust loop runs `bit_idx` from 7 down
to 0, so at fuel `c + 1` the bit index is `c`); breaks out when the column
would pass the display width.  Threads the pixel array and the register
file (the collision flag write `v[0xf] = 1`). -/
def drawRowGo : Nat → Nat → Nat → Nat → (Nat → Bool) → (Nat → Nat) →
    (Nat → Bool) × (Nat → Nat)
  | 0, _, _, _, px, v => (px, v)
  | c + 1, data, posx, posy, px, v =>
    let value := (data >>> c) &&& 0b1
    let idx := posx + posy * DISPLAY_WIDTH
    let v' := if value = 0b1 then (if px idx then updf v 15 1 else v) else v
    let px' := if value = 0b1 then updf px idx (!(px idx)) else px
    if DISPLAY_WIDTH ≤ posx + 1 then (px', v')
    else drawRowGo c data (posx + 1) posy px' v'

/-- The outer `'yloop` of the `Dxyn` sprite draw: first `Nat` argument is
the number of rows still to draw, then the current row index and row
position.  Each row re-reads `v[x]` for the start column (as the source
does) and reads the row byte `ram[sprite_addr + row]`, failing (`none`)
when that index is outside ram.  Breaks out of the whole draw when the row
position would pass the display height. -/
def drawRows (ram : Nat → Nat) (sprite_addr x : Nat) :
    Nat → Nat → Nat → (Nat → Bool) → (Nat → Nat) →
    Option ((Nat → Bool) × (Nat → Nat))
  | 0, _, _, px, v => some (px, v)
  | r + 1, row, posy, px, v =>
    let posx := v x % DISPLAY_WIDTH
    if sprite_addr + row < 4096 then
      let data := ram (sprite_addr + row)
      let pxv := drawRowGo 8 data posx posy px v
      if DISPLAY_HEIGHT ≤ posy + 1 then some pxv
      else drawRows ram sprite_addr x r (row + 1) (posy + 1) pxv.1 pxv.2
    else none

/-- The `Fx0A` key scan: first key index (from `start`, with `fuel`
remaining indices) whose key was pressed on the previous tick and is not
pressed now; `16` when none is found. -/
def findReleaseGo (kp : Chip8Keypad) : Nat → Nat → Nat
  | _, 0 => 16
  | start, fuel + 1 =>
    if kp.pressed_last start && !(kp.pressed start) then start
    else findReleaseGo kp (start + 1) fuel

/-- `Fx55` without quirks: store `v[idx]` to `ram[i + idx]` for each listed
register index; an index outside ram is fatal (`none`). -/
def storeRegs (v : Nat → Nat) (i : Nat) : List Nat → (Nat → Nat) → Option (Nat → Nat)
  | [], ram => some ram
  | idx :: rest, ram =>
    if i + idx < 4096 then storeRegs v i rest (updf ram (i + idx) (v idx))
    else none

/-- `Fx55` with quirks: store `v[idx]` to `ram[i]` and increment `i` per
register stored (no wrap of `i`). -/
def storeRegsQuirk (v : Nat → Nat) : List Nat → (Nat → Nat) → Nat →
    Option ((Nat → Nat) × Nat)
  | [], ram, i => some (ram, i)
  | idx :: rest, ram, i =>
    if i < 4096 then storeRegsQuirk v rest (updf ram i (v idx)) (i + 1)
    else none

/-- `Fx65` without quirks: load `ram[i + idx]` into `v[idx]`. -/
def loadRegs (ram : Nat → Nat) (i : Nat) : List Nat → (Nat → Nat) → Option (Nat → Nat)
  | [], v => some v
  | idx :: rest, v =>
    if i + idx < 4096 then loadRegs ram i rest (updf v idx (ram (i + idx)))
    else none

/-- `Fx65` with quirks: load `ram[i]` into `v[idx]` and increment `i` per
register loaded (no wrap of `i`). -/
def loadRegsQuirk (ram : Nat → Nat) : List Nat → (Nat → Nat) → Nat →
    Option ((Nat → Nat) × Nat)
  | [], v, i => some (v, i)
  | idx :: rest, v, i =>
    if i < 4096 then loadRegsQuirk ram rest (updf v idx (ram i)) (i + 1)
    else none

/-- Big-endian fetch of the two instruction bytes at `pc`. -/
def fetchInstr (s : Chip8State) : Nat :=
  s.ram s.pc * 256 + s.ram (s.pc + 1)

/-- Match arm `0x0` of the decode: clear screen, return, or unknown. -/
def execOp0 (s : Chip8State) (instr : Nat) : Option Chip8State :=
  if instr = 0x00e0 then
    -- 0x00e0: clear display
    some { s with display := fun _ => false }
  else if instr = 0x00ee then
    -- 0x00ee: return from subroutine
    match s.stack.pop with
    | none => none
    | some (addr, st) => some { s with pc := addr, stack := st }
  else none

/-- Match arm `0x8` of the decode: the arithmetic / logic family. -/
def execOp8 (s : Chip8State) (instr : Nat) : Option Chip8State :=
  if nOf instr = 0x0 then
    -- 0x8xy0: set
    some { s with v := updf s.v (xOf instr) (s.v (yOf instr)) }
  else if nOf instr = 0x1 then
    -- 0x8xy1: binary or (quirk: VF zeroed afterwards)
    if s.cosmac_quirks then
      some { s with v := updf (updf s.v (xOf instr) (s.v (xOf instr) ||| s.v (yOf instr))) 15 0 }
    else
      some { s with v := updf s.v (xOf instr) (s.v (xOf instr) ||| s.v (yOf instr)) }
  else if nOf instr = 0x2 then
    -- 0x8xy2: binary and
    if s.cosmac_quirks then
      some { s with v := updf (updf s.v (xOf instr) (s.v (xOf instr) &&& s.v (yOf instr))) 15 0 }
    else
      some { s with v := updf s.v (xOf instr) (s.v (xOf instr) &&& s.v (yOf instr)) }
  else if nOf instr = 0x3 then
    -- 0x8xy3: binary xor
    if s.cosmac_quirks then
      some { s with v := updf (updf s.v (xOf instr) (s.v (xOf instr) ^^^ s.v (yOf instr))) 15 0 }
    else
      some { s with v := updf s.v (xOf instr) (s.v (xOf instr) ^^^ s.v (yOf instr)) }
  else if nOf instr = 0x4 then
    -- 0x8xy4: add (overflowing u8 add: wrapped value, then carry flag)
    some { s with v := updf (updf s.v (xOf instr) ((s.v (xOf instr) + s.v (yOf instr)) % 256)) 15 (if 256 ≤ s.v (xOf instr) + s.v (yOf instr) then 1 else 0) }
  else if nOf instr = 0x5 then
    -- 0x8xy5: subtract vx - vy (overflowing u8 sub: borrow clears VF)
    some { s with v := updf (updf s.v (xOf instr) ((s.v (xOf instr) + 256 - s.v (yOf instr)) % 256)) 15 (if s.v (xOf instr) < s.v (yOf instr) then 0 else 1) }
  else if nOf instr = 0x6 then
    -- 0x8xy6: shift right (quirk: vx is first loaded from vy)
    if s.cosmac_quirks then
      some { s with v := updf (updf (updf s.v (xOf instr) (s.v (yOf instr))) (xOf instr) (s.v (yOf instr) >>> 1)) 15 (s.v (yOf instr) &&& 0b1) }
    else
      some { s with v := updf (updf s.v (xOf instr) (s.v (xOf instr) >>> 1)) 15 (s.v (xOf instr) &&& 0b1) }
  else if nOf instr = 0x7 then
    -- 0x8xy7: subtract vy - vx
    some { s with v := updf (updf s.v (xOf instr) ((s.v (yOf instr) + 256 - s.v (xOf instr)) % 256)) 15 (if s.v (yOf instr) < s.v (xOf instr) then 0 else 1) }
  else if nOf instr = 0xe then
    -- 0x8xye: shift left (u8 shift truncates to 8 bits)
    if s.cosmac_quirks then
      some { s with v := updf (updf (updf s.v (xOf instr) (s.v (yOf instr))) (xOf instr) (s.v (yOf instr) * 2 % 256)) 15 ((s.v (yOf instr) &&& 0b10000000) >>> 7) }
    else
      some { s with v := updf (updf s.v (xOf instr) (s.v (xOf instr) * 2 % 256)) 15 ((s.v (xOf instr) &&& 0b10000000) >>> 7) }
  else none

/-- Match arm `0xd` of the decode: the sprite draw, gated on the render
flag (`blank_interrupt`), with `pc` rewind when blocked. -/
def execOpD (s : Chip8State) (instr : Nat) (blank_interrupt : Bool) :
    Option Chip8State :=
  if !blank_interrupt then
    -- Block on this instruction until the next render
    some { s with pc := s.pc - 2 }
  else
    match drawRows s.ram s.i (xOf instr) (nOf instr) 0
      ((updf s.v 15 0) (yOf instr) % DISPLAY_HEIGHT) s.display (updf s.v 15 0) with
    | none => none
    | some pxv => some { s with display := pxv.1, v := pxv.2 }

/-- Match arm `0xe` of the decode: key skips (an out-of-range key index in
`Vx` is a fatal keypad array access). -/
def execOpE (s : Chip8State) (instr : Nat) (keypad : Chip8Keypad) :
    Option Chip8State :=
  if nnOf instr = 0x9e then
    -- 0xex9e: skip if key in vx is pressed (keypad has 16 entries)
    if s.v (xOf instr) < 16 then
      some { s with pc := if keypad.pressed (s.v (xOf instr)) then s.pc + 2 else s.pc }
    else none
  else if nnOf instr = 0xa1 then
    -- 0xexa1: skip if key in vx is not pressed
    if s.v (xOf instr) < 16 then
      some { s with pc := if !keypad.pressed (s.v (xOf instr)) then s.pc + 2 else s.pc }
    else none
  else none

/-- Match arm `0xf` of the decode: timers, index arithmetic, get-key, BCD
and the register store/load family. -/
def execOpF (s : Chip8State) (instr : Nat) (keypad : Chip8Keypad) :
    Option Chip8State :=
  if nnOf instr = 0x07 then
    -- 0xfx07: get delay timer
    some { s with v := updf s.v (xOf instr) s.delay_timer }
  else if nnOf instr = 0x15 then
    -- 0xfx15: set delay timer
    some { s with delay_timer := s.v (xOf instr) }
  else if nnOf instr = 0x18 then
    -- 0xfx18: set sound timer
    some { s with sound_timer := s.v (xOf instr) }
  else if nnOf instr = 0x1e then
    -- 0xfx1e: add to index (u16 add), then the 12-bit overflow check
    if 4096 ≤ (s.i + s.v (xOf instr)) % 65536 then
      some { s with v := updf s.v 15 1, i := (s.i + s.v (xOf instr)) % 65536 % 4096 }
    else
      some { s with i := (s.i + s.v (xOf instr)) % 65536 }
  else if nnOf instr = 0x0a then
    -- 0xfx0a: get key (release edge scan over the 16 keys)
    if 15 < findReleaseGo keypad 0 16 then
      -- Keep executing this instruction until some key is pressed
      some { s with pc := s.pc - 2 }
    else
      some { s with v := updf s.v (xOf instr) (findReleaseGo keypad 0 16) }
  else if nnOf instr = 0x29 then
    -- 0xfx29: set index to a font sprite
    some { s with i := 0x50 + s.v (xOf instr) * 5 }
  else if nnOf instr = 0x33 then
    -- 0xfx33: vx to decimal (three ram writes, each must be in range)
    if s.i + 2 < 4096 then
      some { s with ram := updf (updf (updf s.ram s.i (s.v (xOf instr) / 100)) (s.i + 1) (s.v (xOf instr) % 100 / 10)) (s.i + 2) (s.v (xOf instr) % 100 % 10) }
    else none
  else if nnOf instr = 0x55 then
    -- 0xfx55: store to ram
    if s.cosmac_quirks then
      match storeRegsQuirk s.v (List.range (xOf instr + 1)) s.ram s.i with
      | none => none
      | some rami => some { s with ram := rami.1, i := rami.2 }
    else
      match storeRegs s.v s.i (List.range (xOf instr + 1)) s.ram with
      | none => none
      | some ram2 => some { s with ram := ram2 }
  else if nnOf instr = 0x65 then
    -- 0xfx65: load from ram
    if s.cosmac_quirks then
      match loadRegsQuirk s.ram (List.range (xOf instr + 1)) s.v s.i with
      | none => none
      | some vi => some { s with v := vi.1, i := vi.2 }
    else
      match loadRegs s.ram s.i (List.range (xOf instr + 1)) s.v with
      | none => none
      | some v2 => some { s with v := v2 }
  else none

/-- Decode-and-execute of one fetched instruction (the big `match` in
`Chip8State::update`); `s` already has `pc` advanced by 2 past the fetched
instruction, exactly as in the source.  Returns `none` on any Rust panic
(unknown instruction, stack overflow/underflow, out-of-range ram or keypad
index).  The final catch-all arm mirrors the source's unreachable `_` arm,
which only prints and leaves the state unchanged. -/
def Chip8State.exec (s : Chip8State) (instr : Nat) (keypad : Chip8Keypad)
    (blank_interrupt : Bool) (rand : Nat) : Option Chip8State :=
  if opOf instr = 0x0 then execOp0 s instr
  else if opOf instr = 0x1 then
    -- 0x1nnn: jump
    some { s with pc := nnnOf instr }
  else if opOf instr = 0x2 then
    -- 0x2nnn: call subroutine
    match s.stack.push s.pc with
    | none => none
    | some st => some { s with stack := st, pc := nnnOf instr }
  else if opOf instr = 0x3 then
    -- 0x3xnn: skip if vx == nn
    some { s with pc := if s.v (xOf instr) = nnOf instr then s.pc + 2 else s.pc }
  else if opOf instr = 0x4 then
    -- 0x4xnn: skip if vx != nn
    some { s with pc := if s.v (xOf instr) ≠ nnOf instr then s.pc + 2 else s.pc }
  else if opOf instr = 0x5 then
    -- 0x5xy0: skip if vx == vy
    if nOf instr = 0x0 then
      some { s with pc := if s.v (xOf instr) = s.v (yOf instr) then s.pc + 2 else s.pc }
    else none
  else if opOf instr = 0x6 then
    -- 0x6xnn: load vx with immediate value
    some { s with v := updf s.v (xOf instr) (nnOf instr) }
  else if opOf instr = 0x7 then
    -- 0x7xnn: add value to register vx (wrapping u8 add)
    some { s with v := updf s.v (xOf instr) ((s.v (xOf instr) + nnOf instr) % 256) }
  else if opOf instr = 0x8 then execOp8 s instr
  else if opOf instr = 0x9 then
    -- 0x9xy0: skip if vx != vy
    if nOf instr = 0x0 then
      some { s with pc := if s.v (xOf instr) ≠ s.v (yOf instr) then s.pc + 2 else s.pc }
    else none
  else if opOf instr = 0xa then
    -- 0xannn: load index register with immediate value
    some { s with i := nnnOf instr }
  else if opOf instr = 0xb then
    -- 0xbnnn: jump to v0 + nnn
    some { s with pc := nnnOf instr + s.v 0x0 }
  else if opOf instr = 0xc then
    -- 0xcxnn: rng (the random byte is the oracle input)
    some { s with v := updf s.v (xOf instr) (rand % 256 &&& nnOf instr) }
  else if opOf instr = 0xd then execOpD s instr blank_interrupt
  else if opOf instr = 0xe then execOpE s instr keypad
  else if opOf instr = 0xf then execOpF s instr keypad
  else
    -- unreachable for byte-valued ram: the source catch-all arm only prints
    some s

/-- `Chip8State::update`: one step.  Updates the timers from the elapsed
microseconds, fetches the big-endian instruction at `pc` (fatal when `pc`
or `pc + 1` is outside the 4096-byte ram), advances `pc` by 2 and
dispatches.  `delta` is the elapsed time in microseconds; `rand` is the
oracle byte for `Cxnn`. -/
def Chip8State.update (s0 : Chip8State) (delta : Nat) (keypad : Chip8Keypad)
    (blank_interrupt : Bool) (rand : Nat) : Option Chip8State :=
  let t := timerLoop s0.delay_timer s0.sound_timer (s0.elapsed_us + delta)
  let s := { s0 with delay_timer := t.1, sound_timer := t.2.1, elapsed_us := t.2.2 }
  if s.pc + 2 ≤ 4096 then
    Chip8State.exec { s with pc := s.pc + 2 } (fetchInstr s) keypad blank_interrupt rand
  else none

/-- Write a list of bytes into ram starting at `addr`
(`copy_from_slice` in `Chip8State::new`). -/
def writeBytes (ram : Nat → Nat) (addr : Nat) : List Nat → (Nat → Nat)
  | [] => ram
  | b :: rest => writeBytes (updf ram addr b) (addr + 1) rest

/-- Modelled from the spec: the font table `font::FONT` lives in `font.rs`,
which is not among the provided sources.  Per the spec it is a fixed table
of 16 five-byte glyphs for the hex digits 0-F, written once at machine
creation into bytes [0x50, 0x9F]; the concrete glyph bytes below are the
standard hex-digit sprites (no claim depends on their values). -/
def fontFONT : List Nat :=
  [0xF0, 0x90, 0x90, 0x90, 0xF0,
   0x20, 0x60, 0x20, 0x20, 0x70,
   0xF0, 0x10, 0xF0, 0x80, 0xF0,
   0xF0, 0x10, 0xF0, 0x10, 0xF0,
   0x90, 0x90, 0xF0, 0x10, 0x10,
   0xF0, 0x80, 0xF0, 0x10, 0xF0,
   0xF0, 0x80, 0xF0, 0x90, 0xF0,
   0xF0, 0x10, 0x20, 0x40, 0x40,
   0xF0, 0x90, 0xF0, 0x90, 0xF0,
   0xF0, 0x90, 0xF0, 0x10, 0xF0,
   0xF0, 0x90, 0xF0, 0x90, 0x90,
   0xE0, 0x90, 0xE0, 0x90, 0xE0,
   0xF0, 0x80, 0x80, 0x80, 0xF0,
   0xE0, 0x90, 0x90, 0x90, 0xE0,
   0xF0, 0x80, 0xF0, 0x80, 0xF0,
   0xF0, 0x80, 0xF0, 0x80, 0x80]

/-- `Chip8State::new`: zeroed ram with the font at 0x50 and the rom at
0x200, `pc = 0x200`, everything else zero / empty / cleared. -/
def Chip8State.new (rom : List Nat) (cosmac : Bool) : Chip8State :=
  let ram0 := writeBytes (fun _ => 0) 0x50 fontFONT
  { ram := writeBytes ram0 0x200 rom
    pc := 0x200
    i := 0
    v := fun _ => 0
    delay_timer := 0
    sound_timer := 0
    stack := { buffer := fun _ => 0, top := 0 }
    display := fun _ => false
    cosmac_quirks := cosmac
    elapsed_us := 0 }

/-- The instruction encodings the interpreter recognizes, read off the
spec's opcode table (§4.1): used to state that everything else is fatal. -/
def recognizedInstr (instr : Nat) : Bool :=
  if opOf instr = 0x0 then decide (instr = 0x00e0 ∨ instr = 0x00ee)
  else if opOf instr = 0x5 then decide (nOf instr = 0)
  else if opOf instr = 0x8 then decide (nOf instr ≤ 7 ∨ nOf instr = 0xe)
  else if opOf instr = 0x9 then decide (nOf instr = 0)
  else if opOf instr = 0xe then decide (nnOf instr = 0x9e ∨ nnOf instr = 0xa1)
  else if opOf instr = 0xf then
    decide (nnOf instr = 0x07 ∨ nnOf instr = 0x15 ∨ nnOf instr = 0x18 ∨
      nnOf instr = 0x1e ∨ nnOf instr = 0x0a ∨ nnOf instr = 0x29 ∨
      nnOf instr = 0x33 ∨ nnOf instr = 0x55 ∨ nnOf instr = 0x65)
  else true

/-- Spec-side description of which display cells a `Dxyn` draw toggles:
sprite origin at column `x0 = Vx mod 64`, row `y0 = Vy mod 32`; row `row`
of the `n` rows, read at `ram[addr + row]`, is drawn most-significant bit
first (bit `7 - t` lands on column `x0 + t`); a cell is drawn only while
the column stays below 64 and the row below 32 (clipping, no wrap). -/
def spriteBitAt (ram : Nat → Nat) (addr x0 y0 n cx cy : Nat) : Prop :=
  ∃ row, row < n ∧ y0 + row < 32 ∧ cy = y0 + row ∧
    ∃ t, t < 8 ∧ x0 + t < 64 ∧ cx = x0 + t ∧
      (ram (addr + row) >>> (7 - t)) &&& 1 = 1

instance (ram : Nat → Nat) (addr x0 y0 n cx cy : Nat) :
    Decidable (spriteBitAt ram addr x0 y0 n cx cy) := by
  unfold spriteBitAt; infer_instance

/-- Spec-side collision condition of a `Dxyn` draw: some drawn sprite bit
lands on a display cell that was already set. -/
def spriteCollAt (ram : Nat → Nat) (addr x0 y0 n : Nat) (px : Nat → Bool) : Prop :=
  ∃ row, row < n ∧ y0 + row < 32 ∧
    ∃ t, t < 8 ∧ x0 + t < 64 ∧
      (ram (addr + row) >>> (7 - t)) &&& 1 = 1 ∧
      px (x0 + t + (y0 + row) * 64) = true

instance (ram : Nat → Nat) (addr x0 y0 n : Nat) (px : Nat → Bool) :
    Decidable (spriteCollAt ram addr x0 y0 n px) := by
  unfold spriteCollAt; infer_instance

/-- Flat-index form of the display cells toggled by the remaining `r` rows
of a draw: row offset `u` (memory row `row + u`, display row `posy + u`),
bit `t` of the row byte lands on column `x0 + t`, clipped at 64 and 32. -/
def rowsHit (ram : Nat → Nat) (addr x0 r row posy idx : Nat) : Prop :=
  ∃ u, u < r ∧ posy + u < 32 ∧ ∃ t, t < 8 ∧ x0 + t < 64 ∧
    idx = x0 + t + (posy + u) * 64 ∧ (ram (addr + row + u) >>> (7 - t)) &&& 1 = 1

instance (ram : Nat → Nat) (addr x0 r row posy idx : Nat) :
    Decidable (rowsHit ram addr x0 r row posy idx) := by
  unfold rowsHit; infer_instance

/-- Collision condition of the remaining `r` rows of a draw: some drawn
sprite bit lands on a pixel that was already set in `px`. -/
def rowsColl (ram : Nat → Nat) (addr x0 r row posy : Nat) (px : Nat → Bool) : Prop :=
  ∃ u, u < r ∧ posy + u < 32 ∧ ∃ t, t < 8 ∧ x0 + t < 64 ∧
    (ram (addr + row + u) >>> (7 - t)) &&& 1 = 1 ∧ px (x0 + t + (posy + u) * 64) = true

instance (ram : Nat → Nat) (addr x0 r row posy : Nat) (px : Nat → Bool) :
    Decidable (rowsColl ram addr x0 r row posy px) := by
  unfold rowsColl; infer_instance


/-- An all-keys-up keypad snapshot (used by concrete witnesses). -/
def kpNone : Chip8Keypad :=
  { pressed := fun _ => false, pressed_last := fun _ => false }

/-- A keypad snapshot where key 3 has just been released (used by a
concrete witness). -/
def kpRel3 : Chip8Keypad :=
  { pressed := fun _ => false, pressed_last := fun k => k = 3 }

/-- A tiny concrete machine state used by witnesses: the two instruction
bytes `b0 b1` at `pc = 0x200`, registers `regs`, index register `i0`,
quirk flag `q`, with one display pixel set at (1, 0). -/
def witState (b0 b1 : Nat) (regs : Nat → Nat) (i0 : Nat) (q : Bool) : Chip8State :=
  { ram := fun a => if a = 0x200 then b0 else if a = 0x201 then b1 else 0
    pc := 0x200
    i := i0
    v := regs
    delay_timer := 3
    sound_timer := 0
    stack := { buffer := fun _ => 0, top := 0 }
    display := fun idx => idx = 1
    cosmac_quirks := q
    elapsed_us := 0 }

/-- The state after only the timer-update phase of a step with elapsed
microseconds `δ`: both timers decremented once per full 16667 µs interval
accumulated (floored at 0, since they only decrement while positive), and
exactly the sub-interval remainder kept in the accumulator. -/
def afterTimers (s : Chip8State) (δ : Nat) : Chip8State :=
  { s with
    delay_timer := s.delay_timer - (s.elapsed_us + δ) / TIMER_DECREMENT_INTERVAL_US
    sound_timer := s.sound_timer - (s.elapsed_us + δ) / TIMER_DECREMENT_INTERVAL_US
    elapsed_us := (s.elapsed_us + δ) % TIMER_DECREMENT_INTERVAL_US }

/-- The successor state a completed step evaluates to (defaulting to the
input state; only used at inputs where the step is known to succeed). -/
def wupd (s : Chip8State) (δ : Nat) (kp : Chip8Keypad) (bl : Bool) (rand : Nat) :
    Chip8State :=
  (s.update δ kp bl rand).getD s

/-- Concrete draw state (`D121` at `pc`, sprite data all zero). -/
def wc1 : Chip8State := witState 0xD1 0x21 (fun _ => 0) 0 false

/-- Concrete draw state (`D121` at `pc`, `I` pointing at the `0xD1` byte,
so the one-row sprite `0b11010001` is drawn at the origin and collides
with the pixel preset at index 1). -/
def wc2 : Chip8State := witState 0xD1 0x21 (fun _ => 0) 0x200 false

/-- Concrete draw state for the `x = 15` corner (`DF02` at `pc`, `I`
pointing at the instruction bytes, so the sprite rows are `0xDF, 0x02`):
the row-0 collision on the preset pixel at index 1 writes 1 into
`v[15]`, which the code then re-reads as row 1's start column. -/
def wc2x : Chip8State := witState 0xDF 0x02 (fun _ => 0) 0x200 false


/-- Concrete get-key state (`F30A` at `pc`). -/
def wc3 : Chip8State := witState 0xF3 0x0A (fun _ => 0) 0 false

/-- Concrete clear-screen state (`00E0` at `pc`), for the timer phase. -/
def wc4 : Chip8State := witState 0x00 0xE0 (fun _ => 0) 0 false

/-- Concrete add state (`8124` at `pc`, `V1 = 255`, `V2 = 1`: a carry). -/
def wc6 : Chip8State :=
  witState 0x81 0x24 (fun j => if j = 1 then 255 else if j = 2 then 1 else 0) 0 false

/-- Concrete shift state (`8126` at `pc`, `V1 = 5 ≠ 9 = V2`). -/
def wc7 : Chip8State :=
  witState 0x81 0x26 (fun j => if j = 1 then 5 else if j = 2 then 9 else 0) 0 false

/-- Concrete index-add state (`F11E` at `pc`, `I = 4000`, `V1 = 255`:
the sum 4255 overflows the 12-bit index). -/
def wc8 : Chip8State := witState 0xF1 0x1E (fun j => if j = 1 then 255 else 0) 4000 false

/-- Concrete quirk-mode store state (`F255` at `pc`, `I = 10`). -/
def wc9 : Chip8State := witState 0xF2 0x55 (fun j => j) 10 true

/-- A state whose fetch address is out of bounds (`pc = 4095`). -/
def wc5pc : Chip8State := { witState 0x00 0xE0 (fun _ => 0) 0 false with pc := 4095 }

/-- A state whose instruction (`FFFF`) is unrecognized. -/
def wc5un : Chip8State := witState 0xFF 0xFF (fun _ => 0) 0 false

/-- A `2nnn` call state whose stack is already full. -/
def wc5ov : Chip8State :=
  { witState 0x22 0x00 (fun _ => 0) 0 false with
    stack := { buffer := fun _ => 0, top := 64 } }

/-- A `00EE` return state whose stack is empty. -/
def wc5ee : Chip8State := witState 0x00 0xEE (fun _ => 0) 0 false


theorem timerLoopGo_eq : ∀ (fuel e d s : Nat), e ≤ fuel →
    timerLoopGo fuel d s e =
      (d - e / TIMER_DECREMENT_INTERVAL_US, s - e / TIMER_DECREMENT_INTERVAL_US,
        e % TIMER_DECREMENT_INTERVAL_US) := by
  have hI : (0 : Nat) < TIMER_DECREMENT_INTERVAL_US := by decide
  intro fuel
  induction fuel with
  | zero =>
    intro e d s he
    have : e = 0 := by omega
    subst this
    simp [timerLoopGo]
  | succ f ih =>
    intro e d s he
    rw [timerLoopGo]
    by_cases h : TIMER_DECREMENT_INTERVAL_US ≤ e
    · rw [if_pos h, ih (e - TIMER_DECREMENT_INTERVAL_US) _ _ (by omega)]
      rw [Nat.mod_eq_sub_mod h, Nat.div_eq_sub_div hI h]
      generalize (e - TIMER_DECREMENT_INTERVAL_US) / TIMER_DECREMENT_INTERVAL_US = q
      simp only [Prod.mk.injEq]
      refine ⟨?_, ?_, trivial⟩
      · by_cases hd : 0 < d
        · rw [if_pos hd]; omega
        · rw [if_neg hd]; omega
      · by_cases hs : 0 < s
        · rw [if_pos hs]; omega
        · rw [if_neg hs]; omega
    · rw [if_neg h]
      have h1 : e / TIMER_DECREMENT_INTERVAL_US = 0 := Nat.div_eq_of_lt (by omega)
      have h2 : e % TIMER_DECREMENT_INTERVAL_US = e := Nat.mod_eq_of_lt (by omega)
      rw [h1, h2]
      simp

theorem timerLoop_eq (e d s : Nat) :
    timerLoop d s e =
      (d - e / TIMER_DECREMENT_INTERVAL_US, s - e / TIMER_DECREMENT_INTERVAL_US,
        e % TIMER_DECREMENT_INTERVAL_US) :=
  timerLoopGo_eq e e d s (le_refl e)

set_option maxRecDepth 8000 in
/-- A step whose fetch is in range is the timer phase followed by
decode-execute of the big-endian instruction at the old `pc`, with `pc`
already advanced by 2. -/
theorem update_eq_exec (s0 : Chip8State) (δ : Nat) (kp : Chip8Keypad) (bl : Bool)
    (rand : Nat) (hpc : s0.pc + 2 ≤ 4096) :
    s0.update δ kp bl rand =
      Chip8State.exec { afterTimers s0 δ with pc := s0.pc + 2 } (fetchInstr s0)
        kp bl rand := by
  simp only [Chip8State.update, timerLoop_eq, afterTimers, fetchInstr]
  rw [if_pos hpc]

/-- A step whose fetch would read outside ram is fatal. -/
theorem update_fetch_oob (s0 : Chip8State) (δ : Nat) (kp : Chip8Keypad) (bl : Bool)
    (rand : Nat) (hpc : ¬s0.pc + 2 ≤ 4096) :
    s0.update δ kp bl rand = none := by
  simp only [Chip8State.update, timerLoop_eq]
  rw [if_neg hpc]

/-- `Dxyn` with `blank_interrupt` false only rewinds `pc` by 2. -/
theorem exec_draw_noblank (s : Chip8State) (instr : Nat) (kp : Chip8Keypad)
    (rand : Nat) (hop : opOf instr = 0xd) :
    s.exec instr kp false rand = some { s with pc := s.pc - 2 } := by
  simp [Chip8State.exec, execOpD, hop]

theorem findReleaseGo_none (kp : Chip8Keypad) : ∀ fuel start,
    (∀ k, start ≤ k → k < start + fuel →
      ¬(kp.pressed_last k = true ∧ kp.pressed k = false)) →
    findReleaseGo kp start fuel = 16 := by
  intro fuel
  induction fuel with
  | zero => intro start _; rfl
  | succ f ih =>
    intro start h
    rw [findReleaseGo]
    have h0 := h start (le_refl _) (by omega)
    have hc : (kp.pressed_last start && !(kp.pressed start)) = false := by
      cases hl : kp.pressed_last start <;> cases hp : kp.pressed start <;> simp_all
    rw [hc]
    simp only [Bool.false_eq_true, if_false]
    exact ih (start + 1) (fun k hk1 hk2 => h k (by omega) (by omega))

theorem findReleaseGo_found (kp : Chip8Keypad) : ∀ fuel start,
    (∃ k, start ≤ k ∧ k < start + fuel ∧
      kp.pressed_last k = true ∧ kp.pressed k = false) →
    findReleaseGo kp start fuel < start + fuel ∧
    kp.pressed_last (findReleaseGo kp start fuel) = true ∧
    kp.pressed (findReleaseGo kp start fuel) = false := by
  intro fuel
  induction fuel with
  | zero =>
    intro start h
    obtain ⟨k, h1, h2, _⟩ := h
    omega
  | succ f ih =>
    intro start h
    rw [findReleaseGo]
    by_cases hc : (kp.pressed_last start && !(kp.pressed start)) = true
    · rw [if_pos hc]
      refine ⟨by omega, ?_, ?_⟩
      · exact (Bool.and_eq_true _ _ |>.mp hc).1
      · have := (Bool.and_eq_true _ _ |>.mp hc).2
        simpa using this
    · rw [if_neg hc]
      have hshift : ∃ k, start + 1 ≤ k ∧ k < start + 1 + f ∧
          kp.pressed_last k = true ∧ kp.pressed k = false := by
        obtain ⟨k, h1, h2, h3, h4⟩ := h
        refine ⟨k, ?_, by omega, h3, h4⟩
        rcases Nat.eq_or_lt_of_le h1 with heq | hlt
        · exfalso; apply hc; subst heq; simp [h3, h4]
        · omega
      have := ih (start + 1) hshift
      exact ⟨by omega, this.2.1, this.2.2⟩

/-- `Fx0A` when some key shows a release edge: the found index (which
satisfies the edge condition) is stored into `Vx`; `pc` is not rewound. -/
theorem exec_getkey_edge (s : Chip8State) (instr : Nat) (kp : Chip8Keypad)
    (bl : Bool) (rand : Nat) (hop : opOf instr = 0xf) (hnn : nnOf instr = 0x0a)
    (hedge : ∃ k, k < 16 ∧ kp.pressed_last k = true ∧ kp.pressed k = false) :
    s.exec instr kp bl rand =
      some { s with v := updf s.v (xOf instr) (findReleaseGo kp 0 16) } ∧
    findReleaseGo kp 0 16 < 16 ∧
    kp.pressed_last (findReleaseGo kp 0 16) = true ∧
    kp.pressed (findReleaseGo kp 0 16) = false := by
  have hf := findReleaseGo_found kp 16 0 (by
    obtain ⟨k, h1, h2, h3⟩ := hedge
    exact ⟨k, by omega, by omega, h2, h3⟩)
  obtain ⟨hlt, hl, hp⟩ := hf
  refine ⟨?_, by omega, hl, hp⟩
  simp only [Chip8State.exec, execOpF, hop, hnn]
  norm_num
  intro hgt
  exact absurd hgt (by omega)

/-- `Fx0A` when no key shows a release edge (in particular when keys are
merely held pressed): only `pc` is rewound by 2. -/
theorem exec_getkey_noedge (s : Chip8State) (instr : Nat) (kp : Chip8Keypad)
    (bl : Bool) (rand : Nat) (hop : opOf instr = 0xf) (hnn : nnOf instr = 0x0a)
    (hno : ∀ k, k < 16 → ¬(kp.pressed_last k = true ∧ kp.pressed k = false)) :
    s.exec instr kp bl rand = some { s with pc := s.pc - 2 } := by
  have h16 : findReleaseGo kp 0 16 = 16 :=
    findReleaseGo_none kp 16 0 (fun k _ hk => hno k (by omega))
  simp [Chip8State.exec, execOpF, hop, hnn, h16]

/-- Decode bound: the opcode family nibble is at most 15. -/
theorem opOf_le (instr : Nat) : opOf instr ≤ 15 := by
  unfold opOf
  have h1 : instr &&& 0xf000 ≤ 0xf000 := Nat.and_le_right
  calc (instr &&& 0xf000) >>> 12 = (instr &&& 0xf000) / 4096 := by
        rw [Nat.shiftRight_eq_div_pow]
    _ ≤ 0xf000 / 4096 := Nat.div_le_div_right h1
    _ = 15 := by norm_num

/-- Decode bound: the low nibble is at most 15. -/
theorem nOf_le (instr : Nat) : nOf instr ≤ 15 := Nat.and_le_right

theorem execOp0_frame (s : Chip8State) (instr : Nat) (s' : Chip8State)
    (h : execOp0 s instr = some s') :
    s'.elapsed_us = s.elapsed_us ∧ s'.cosmac_quirks = s.cosmac_quirks ∧
    s'.delay_timer = s.delay_timer ∧ s'.sound_timer = s.sound_timer := by
  unfold execOp0 at h
  by_cases h0 : instr = 0x00e0
  · rw [if_pos h0] at h
    injection h with h2; subst h2; exact ⟨rfl, rfl, rfl, rfl⟩
  · rw [if_neg h0] at h
    by_cases h1 : instr = 0x00ee
    · rw [if_pos h1] at h
      rcases hpop : s.stack.pop with _ | ⟨addr, st⟩
      · rw [hpop] at h; exact Option.noConfusion h
      · rw [hpop] at h
        injection h with h2; subst h2; exact ⟨rfl, rfl, rfl, rfl⟩
    · rw [if_neg h1] at h; exact Option.noConfusion h

theorem execOp8_frame (s : Chip8State) (instr : Nat) (s' : Chip8State)
    (h : execOp8 s instr = some s') :
    s'.elapsed_us = s.elapsed_us ∧ s'.cosmac_quirks = s.cosmac_quirks ∧
    s'.delay_timer = s.delay_timer ∧ s'.sound_timer = s.sound_timer := by
  have hle : nOf instr ≤ 15 := nOf_le instr
  have hcs : nOf instr = 0 ∨ nOf instr = 1 ∨ nOf instr = 2 ∨ nOf instr = 3 ∨
      nOf instr = 4 ∨ nOf instr = 5 ∨ nOf instr = 6 ∨ nOf instr = 7 ∨
      nOf instr = 8 ∨ nOf instr = 9 ∨ nOf instr = 10 ∨ nOf instr = 11 ∨
      nOf instr = 12 ∨ nOf instr = 13 ∨ nOf instr = 14 ∨ nOf instr = 15 := by omega
  rcases hcs with hn|hn|hn|hn|hn|hn|hn|hn|hn|hn|hn|hn|hn|hn|hn|hn
  all_goals simp [execOp8, hn] at h
  all_goals try (rw [← h]; exact ⟨rfl, rfl, rfl, rfl⟩)
  all_goals (cases hq : s.cosmac_quirks <;> simp [hq] at h <;>
    (rw [← h]; exact ⟨rfl, rfl, rfl, rfl⟩))

theorem execOpD_frame (s : Chip8State) (instr : Nat) (bl : Bool) (s' : Chip8State)
    (h : execOpD s instr bl = some s') :
    s'.elapsed_us = s.elapsed_us ∧ s'.cosmac_quirks = s.cosmac_quirks ∧
    s'.delay_timer = s.delay_timer ∧ s'.sound_timer = s.sound_timer := by
  cases bl with
  | false =>
    simp [execOpD] at h
    rw [← h]; exact ⟨rfl, rfl, rfl, rfl⟩
  | true =>
    simp only [execOpD, Bool.not_true] at h
    rw [if_neg (by simp)] at h
    split at h
    · exact Option.noConfusion h
    · injection h with h2; subst h2; exact ⟨rfl, rfl, rfl, rfl⟩

theorem execOpE_frame (s : Chip8State) (instr : Nat) (kp : Chip8Keypad)
    (s' : Chip8State) (h : execOpE s instr kp = some s') :
    s'.elapsed_us = s.elapsed_us ∧ s'.cosmac_quirks = s.cosmac_quirks ∧
    s'.delay_timer = s.delay_timer ∧ s'.sound_timer = s.sound_timer := by
  unfold execOpE at h
  by_cases h0 : nnOf instr = 0x9e
  · rw [if_pos h0] at h
    split at h
    · injection h with h2; subst h2; exact ⟨rfl, rfl, rfl, rfl⟩
    · exact Option.noConfusion h
  · rw [if_neg h0] at h
    by_cases h1 : nnOf instr = 0xa1
    · rw [if_pos h1] at h
      split at h
      · injection h with h2; subst h2; exact ⟨rfl, rfl, rfl, rfl⟩
      · exact Option.noConfusion h
    · rw [if_neg h1] at h; exact Option.noConfusion h

theorem execOpF_frame (s : Chip8State) (instr : Nat) (kp : Chip8Keypad)
    (s' : Chip8State) (h : execOpF s instr kp = some s') :
    s'.elapsed_us = s.elapsed_us ∧ s'.cosmac_quirks = s.cosmac_quirks ∧
    (nnOf instr ≠ 0x15 → s'.delay_timer = s.delay_timer) ∧
    (nnOf instr ≠ 0x18 → s'.sound_timer = s.sound_timer) := by
  unfold execOpF at h
  by_cases h07 : nnOf instr = 0x07
  · rw [if_pos h07] at h
    injection h with h2; subst h2
    exact ⟨rfl, rfl, fun _ => rfl, fun _ => rfl⟩
  · rw [if_neg h07] at h
    by_cases h15 : nnOf instr = 0x15
    · rw [if_pos h15] at h
      injection h with h2; subst h2
      exact ⟨rfl, rfl, fun hx => absurd h15 hx, fun _ => rfl⟩
    · rw [if_neg h15] at h
      by_cases h18 : nnOf instr = 0x18
      · rw [if_pos h18] at h
        injection h with h2; subst h2
        exact ⟨rfl, rfl, fun _ => rfl, fun hx => absurd h18 hx⟩
      · rw [if_neg h18] at h
        by_cases h1e : nnOf instr = 0x1e
        · rw [if_pos h1e] at h
          split at h
          all_goals injection h with h2
          all_goals subst h2
          all_goals exact ⟨rfl, rfl, fun _ => rfl, fun _ => rfl⟩
        · rw [if_neg h1e] at h
          by_cases h0a : nnOf instr = 0x0a
          · rw [if_pos h0a] at h
            split at h
            all_goals injection h with h2
            all_goals subst h2
            all_goals exact ⟨rfl, rfl, fun _ => rfl, fun _ => rfl⟩
          · rw [if_neg h0a] at h
            by_cases h29 : nnOf instr = 0x29
            · rw [if_pos h29] at h
              injection h with h2; subst h2
              exact ⟨rfl, rfl, fun _ => rfl, fun _ => rfl⟩
            · rw [if_neg h29] at h
              by_cases h33 : nnOf instr = 0x33
              · rw [if_pos h33] at h
                split at h
                · injection h with h2; subst h2
                  exact ⟨rfl, rfl, fun _ => rfl, fun _ => rfl⟩
                · exact Option.noConfusion h
              · rw [if_neg h33] at h
                by_cases h55 : nnOf instr = 0x55
                · rw [if_pos h55] at h
                  split at h
                  all_goals split at h
                  all_goals first
                    | exact Option.noConfusion h
                    | (injection h with h2; subst h2; exact ⟨rfl, rfl, fun _ => rfl, fun _ => rfl⟩)
                · rw [if_neg h55] at h
                  by_cases h65 : nnOf instr = 0x65
                  · rw [if_pos h65] at h
                    split at h
                    all_goals split at h
                    all_goals first
                      | exact Option.noConfusion h
                      | (injection h with h2; subst h2; exact ⟨rfl, rfl, fun _ => rfl, fun _ => rfl⟩)
                  · rw [if_neg h65] at h; exact Option.noConfusion h

/-- No instruction other than `Fx15` touches the delay timer, none other
than `Fx18` touches the sound timer, and none touches the elapsed-µs
accumulator or the quirk flag. -/
theorem exec_frame (s : Chip8State) (instr : Nat) (kp : Chip8Keypad) (bl : Bool)
    (rand : Nat) (s' : Chip8State) (h : s.exec instr kp bl rand = some s') :
    s'.elapsed_us = s.elapsed_us ∧ s'.cosmac_quirks = s.cosmac_quirks ∧
    (¬(opOf instr = 0xf ∧ nnOf instr = 0x15) → s'.delay_timer = s.delay_timer) ∧
    (¬(opOf instr = 0xf ∧ nnOf instr = 0x18) → s'.sound_timer = s.sound_timer) := by
  have hle : opOf instr ≤ 15 := opOf_le instr
  have hcs : opOf instr = 0 ∨ opOf instr = 1 ∨ opOf instr = 2 ∨ opOf instr = 3 ∨
      opOf instr = 4 ∨ opOf instr = 5 ∨ opOf instr = 6 ∨ opOf instr = 7 ∨
      opOf instr = 8 ∨ opOf instr = 9 ∨ opOf instr = 10 ∨ opOf instr = 11 ∨
      opOf instr = 12 ∨ opOf instr = 13 ∨ opOf instr = 14 ∨ opOf instr = 15 := by
    omega
  rcases hcs with hop|hop|hop|hop|hop|hop|hop|hop|hop|hop|hop|hop|hop|hop|hop|hop
  all_goals simp only [Chip8State.exec, hop] at h
  all_goals norm_num at h
  · obtain ⟨a, b, c, d⟩ := execOp0_frame _ _ _ h
    exact ⟨a, b, fun _ => c, fun _ => d⟩
  · rw [← h]; exact ⟨rfl, rfl, fun _ => rfl, fun _ => rfl⟩
  · rcases hpush : s.stack.push s.pc with _ | st
    · rw [hpush] at h; exact Option.noConfusion h
    · rw [hpush] at h
      injection h with h2; subst h2
      exact ⟨rfl, rfl, fun _ => rfl, fun _ => rfl⟩
  · rw [← h]; exact ⟨rfl, rfl, fun _ => rfl, fun _ => rfl⟩
  · rw [← h]; exact ⟨rfl, rfl, fun _ => rfl, fun _ => rfl⟩
  · obtain ⟨-, h⟩ := h
    rw [← h]; exact ⟨rfl, rfl, fun _ => rfl, fun _ => rfl⟩
  · rw [← h]; exact ⟨rfl, rfl, fun _ => rfl, fun _ => rfl⟩
  · rw [← h]; exact ⟨rfl, rfl, fun _ => rfl, fun _ => rfl⟩
  · obtain ⟨a, b, c, d⟩ := execOp8_frame _ _ _ h
    exact ⟨a, b, fun _ => c, fun _ => d⟩
  · obtain ⟨-, h⟩ := h
    rw [← h]; exact ⟨rfl, rfl, fun _ => rfl, fun _ => rfl⟩
  · rw [← h]; exact ⟨rfl, rfl, fun _ => rfl, fun _ => rfl⟩
  · rw [← h]; exact ⟨rfl, rfl, fun _ => rfl, fun _ => rfl⟩
  · rw [← h]; exact ⟨rfl, rfl, fun _ => rfl, fun _ => rfl⟩
  · obtain ⟨a, b, c, d⟩ := execOpD_frame _ _ _ _ h
    exact ⟨a, b, fun _ => c, fun _ => d⟩
  · obtain ⟨a, b, c, d⟩ := execOpE_frame _ _ _ _ h
    exact ⟨a, b, fun _ => c, fun _ => d⟩
  · obtain ⟨a, b, c, d⟩ := execOpF_frame _ _ _ _ h
    exact ⟨a, b, fun hx => c fun hnn => hx ⟨hop, hnn⟩,
      fun hx => d fun hnn => hx ⟨hop, hnn⟩⟩

theorem storeRegsQuirk_i (v : Nat → Nat) : ∀ (l : List Nat) (ram : Nat → Nat)
    (i : Nat) (out : (Nat → Nat) × Nat), storeRegsQuirk v l ram i = some out →
    out.2 = i + l.length := by
  intro l
  induction l with
  | nil =>
    intro ram i out h
    injection h with h2
    subst h2
    simp
  | cons idx rest ih =>
    intro ram i out h
    unfold storeRegsQuirk at h
    split at h
    · have := ih _ _ _ h
      simp [this]
      omega
    · exact Option.noConfusion h

theorem loadRegsQuirk_i (ram : Nat → Nat) : ∀ (l : List Nat) (v : Nat → Nat)
    (i : Nat) (out : (Nat → Nat) × Nat), loadRegsQuirk ram l v i = some out →
    out.2 = i + l.length := by
  intro l
  induction l with
  | nil =>
    intro v i out h
    injection h with h2
    subst h2
    simp
  | cons idx rest ih =>
    intro v i out h
    unfold loadRegsQuirk at h
    split at h
    · have := ih _ _ _ h
      simp [this]
      omega
    · exact Option.noConfusion h

theorem pushMany_sound : ∀ (vals : List Nat) (st : Chip8Stack),
    st.top + vals.length ≤ 64 →
    ∃ st', pushMany st vals = some st' ∧ st'.top = st.top + vals.length := by
  intro vals
  induction vals with
  | nil => intro st _; exact ⟨st, rfl, by simp⟩
  | cons val rest ih =>
    intro st hle
    have hne : st.top ≠ STACK_CAPACITY := by
      unfold STACK_CAPACITY
      simp at hle ⊢
      omega
    obtain ⟨st', hrec, htop⟩ := ih
      { buffer := updf st.buffer st.top val, top := st.top + 1 }
      (by simp at hle ⊢; omega)
    refine ⟨st', ?_, by simp at htop ⊢; omega⟩
    unfold pushMany Chip8Stack.push
    rw [if_neg hne]
    exact hrec

/-- `Annn` loads the low 12 bits into the index register. -/
theorem exec_annn (s : Chip8State) (instr : Nat) (kp : Chip8Keypad) (bl : Bool)
    (rand : Nat) (hop : opOf instr = 0xa) :
    s.exec instr kp bl rand = some { s with i := nnnOf instr } := by
  simp [Chip8State.exec, hop]

/-- `7xnn`: wrapping byte add into `Vx`, flags untouched. -/
theorem exec_7xnn (s : Chip8State) (instr : Nat) (kp : Chip8Keypad) (bl : Bool)
    (rand : Nat) (hop : opOf instr = 0x7) :
    s.exec instr kp bl rand =
      some { s with v := updf s.v (xOf instr) ((s.v (xOf instr) + nnOf instr) % 256) } := by
  simp [Chip8State.exec, hop]

/-- `8xy4`: wrapped sum into `Vx`, then the carry into `VF`. -/
theorem exec_8xy4 (s : Chip8State) (instr : Nat) (kp : Chip8Keypad) (bl : Bool)
    (rand : Nat) (hop : opOf instr = 0x8) (hn : nOf instr = 0x4) :
    s.exec instr kp bl rand =
      some { s with v := updf (updf s.v (xOf instr) ((s.v (xOf instr) + s.v (yOf instr)) % 256)) 15 (if 256 ≤ s.v (xOf instr) + s.v (yOf instr) then 1 else 0) } := by
  simp [Chip8State.exec, execOp8, hop, hn]

/-- `8xy5`: wrapped difference `Vx - Vy` into `Vx`, borrow clears `VF`. -/
theorem exec_8xy5 (s : Chip8State) (instr : Nat) (kp : Chip8Keypad) (bl : Bool)
    (rand : Nat) (hop : opOf instr = 0x8) (hn : nOf instr = 0x5) :
    s.exec instr kp bl rand =
      some { s with v := updf (updf s.v (xOf instr) ((s.v (xOf instr) + 256 - s.v (yOf instr)) % 256)) 15 (if s.v (xOf instr) < s.v (yOf instr) then 0 else 1) } := by
  simp [Chip8State.exec, execOp8, hop, hn]

/-- `8xy7`: wrapped difference `Vy - Vx` into `Vx`, borrow clears `VF`. -/
theorem exec_8xy7 (s : Chip8State) (instr : Nat) (kp : Chip8Keypad) (bl : Bool)
    (rand : Nat) (hop : opOf instr = 0x8) (hn : nOf instr = 0x7) :
    s.exec instr kp bl rand =
      some { s with v := updf (updf s.v (xOf instr) ((s.v (yOf instr) + 256 - s.v (xOf instr)) % 256)) 15 (if s.v (yOf instr) < s.v (xOf instr) then 0 else 1) } := by
  simp [Chip8State.exec, execOp8, hop, hn]

/-- `8xy6` in quirk mode: `Vx` is first loaded from `Vy`, then shifted. -/
theorem exec_8xy6_quirk (s : Chip8State) (instr : Nat) (kp : Chip8Keypad) (bl : Bool)
    (rand : Nat) (hop : opOf instr = 0x8) (hn : nOf instr = 0x6)
    (hq : s.cosmac_quirks = true) :
    s.exec instr kp bl rand =
      some { s with v := updf (updf (updf s.v (xOf instr) (s.v (yOf instr))) (xOf instr) (s.v (yOf instr) >>> 1)) 15 (s.v (yOf instr) &&& 0b1) } := by
  simp [Chip8State.exec, execOp8, hop, hn, hq]

/-- `8xy6` without quirks: `Vx` shifted in place, `Vy` ignored. -/
theorem exec_8xy6_noquirk (s : Chip8State) (instr : Nat) (kp : Chip8Keypad) (bl : Bool)
    (rand : Nat) (hop : opOf instr = 0x8) (hn : nOf instr = 0x6)
    (hq : s.cosmac_quirks = false) :
    s.exec instr kp bl rand =
      some { s with v := updf (updf s.v (xOf instr) (s.v (xOf instr) >>> 1)) 15 (s.v (xOf instr) &&& 0b1) } := by
  simp [Chip8State.exec, execOp8, hop, hn, hq]

/-- `8xyE` in quirk mode: `Vx` is first loaded from `Vy`, then shifted left. -/
theorem exec_8xye_quirk (s : Chip8State) (instr : Nat) (kp : Chip8Keypad) (bl : Bool)
    (rand : Nat) (hop : opOf instr = 0x8) (hn : nOf instr = 0xe)
    (hq : s.cosmac_quirks = true) :
    s.exec instr kp bl rand =
      some { s with v := updf (updf (updf s.v (xOf instr) (s.v (yOf instr))) (xOf instr) (s.v (yOf instr) * 2 % 256)) 15 ((s.v (yOf instr) &&& 0b10000000) >>> 7) } := by
  simp [Chip8State.exec, execOp8, hop, hn, hq]

/-- `8xyE` without quirks: `Vx` shifted left in place, `Vy` ignored. -/
theorem exec_8xye_noquirk (s : Chip8State) (instr : Nat) (kp : Chip8Keypad) (bl : Bool)
    (rand : Nat) (hop : opOf instr = 0x8) (hn : nOf instr = 0xe)
    (hq : s.cosmac_quirks = false) :
    s.exec instr kp bl rand =
      some { s with v := updf (updf s.v (xOf instr) (s.v (xOf instr) * 2 % 256)) 15 ((s.v (xOf instr) &&& 0b10000000) >>> 7) } := by
  simp [Chip8State.exec, execOp8, hop, hn, hq]

/-- `Fx1E`: `u16` add into the index register, then the 12-bit wrap check. -/
theorem exec_fx1e (s : Chip8State) (instr : Nat) (kp : Chip8Keypad) (bl : Bool)
    (rand : Nat) (hop : opOf instr = 0xf) (hnn : nnOf instr = 0x1e) :
    s.exec instr kp bl rand =
      if 4096 ≤ (s.i + s.v (xOf instr)) % 65536 then
        some { s with v := updf s.v 15 1, i := (s.i + s.v (xOf instr)) % 65536 % 4096 }
      else some { s with i := (s.i + s.v (xOf instr)) % 65536 } := by
  simp [Chip8State.exec, execOpF, hop, hnn]

/-- `Fx55` in quirk mode leaves the index register incremented once per
register stored (x + 1 times), with no wrap. -/
theorem exec_fx55_quirk_i (s : Chip8State) (instr : Nat) (kp : Chip8Keypad) (bl : Bool)
    (rand : Nat) (s' : Chip8State) (hop : opOf instr = 0xf) (hnn : nnOf instr = 0x55)
    (h : s.exec instr kp bl rand = some s') (hq : s.cosmac_quirks = true) :
    s'.i = s.i + xOf instr + 1 := by
  simp only [Chip8State.exec, execOpF, hop, hnn] at h
  norm_num [hq] at h
  split at h
  · exact Option.noConfusion h
  · injection h with h2
    subst h2
    have := storeRegsQuirk_i s.v (List.range (xOf instr + 1)) s.ram s.i _ (by assumption)
    simpa using this

/-- `Fx65` in quirk mode leaves the index register incremented once per
register loaded (x + 1 times), with no wrap. -/
theorem exec_fx65_quirk_i (s : Chip8State) (instr : Nat) (kp : Chip8Keypad) (bl : Bool)
    (rand : Nat) (s' : Chip8State) (hop : opOf instr = 0xf) (hnn : nnOf instr = 0x65)
    (h : s.exec instr kp bl rand = some s') (hq : s.cosmac_quirks = true) :
    s'.i = s.i + xOf instr + 1 := by
  simp only [Chip8State.exec, execOpF, hop, hnn] at h
  norm_num [hq] at h
  split at h
  · exact Option.noConfusion h
  · injection h with h2
    subst h2
    have := loadRegsQuirk_i s.ram (List.range (xOf instr + 1)) s.v s.i _ (by assumption)
    simpa using this

/-- `Dxyn` with the render flag set hands the state to the sprite-draw
loop (fatal when a sprite row would be read outside ram). -/
theorem exec_draw_blank (s : Chip8State) (instr : Nat) (kp : Chip8Keypad)
    (rand : Nat) (hop : opOf instr = 0xd) :
    s.exec instr kp true rand =
      match drawRows s.ram s.i (xOf instr) (nOf instr) 0
        ((updf s.v 15 0) (yOf instr) % DISPLAY_HEIGHT) s.display (updf s.v 15 0) with
      | none => none
      | some pxv => some { s with display := pxv.1, v := pxv.2 } := by
  simp [Chip8State.exec, execOpD, hop]

/-- A blocked `Dxyn` step (render flag false) is exactly the timer phase:
`pc` ends back at its pre-fetch value and nothing else changes. -/
theorem update_draw_blocked (s : Chip8State) (δ : Nat) (kp : Chip8Keypad)
    (rand : Nat) (hpc : s.pc + 2 ≤ 4096) (hop : opOf (fetchInstr s) = 0xd) :
    s.update δ kp false rand = some (afterTimers s δ) := by
  rw [update_eq_exec s δ kp false rand hpc, exec_draw_noblank _ _ _ _ hop]
  rfl

/-- A blocked `Fx0A` step (no release edge) is exactly the timer phase. -/
theorem update_getkey_blocked (s : Chip8State) (δ : Nat) (kp : Chip8Keypad)
    (bl : Bool) (rand : Nat) (hpc : s.pc + 2 ≤ 4096)
    (hop : opOf (fetchInstr s) = 0xf) (hnn : nnOf (fetchInstr s) = 0x0a)
    (hno : ∀ k, k < 16 → ¬(kp.pressed_last k = true ∧ kp.pressed k = false)) :
    s.update δ kp bl rand = some (afterTimers s δ) := by
  rw [update_eq_exec s δ kp bl rand hpc, exec_getkey_noedge _ _ _ _ _ hop hnn hno]
  rfl

/-- C1: for a machine state whose instruction at `pc` is `Dxyn`, a step
with `render_just_happened` false does not draw and leaves `pc` at its
pre-fetch value (the whole step is just the timer phase), while a step
with the flag true executes the sprite draw: the resulting display and
registers are exactly the output of the draw loop and `pc` has advanced
past the instruction. -/
theorem c1_draw_render_sync (s : Chip8State) (δ : Nat) (kp : Chip8Keypad)
    (rand : Nat) (hpc : s.pc + 2 ≤ 4096) (hop : opOf (fetchInstr s) = 0xd) :
    (s.update δ kp false rand = some (afterTimers s δ)) ∧
    (∀ s', s.update δ kp true rand = some s' →
      s'.pc = s.pc + 2 ∧
      ∃ pxv, drawRows s.ram s.i (xOf (fetchInstr s)) (nOf (fetchInstr s)) 0
          (updf s.v 15 0 (yOf (fetchInstr s)) % 32) s.display (updf s.v 15 0) =
          some pxv ∧
        s'.display = pxv.1 ∧ s'.v = pxv.2) := by
  refine ⟨update_draw_blocked s δ kp rand hpc hop, ?_⟩
  intro s' h
  rw [update_eq_exec s δ kp true rand hpc, exec_draw_blank _ _ _ _ hop] at h
  split at h
  · exact Option.noConfusion h
  · injection h with h2
    subst h2
    exact ⟨rfl, _, by assumption, rfl, rfl⟩

/-- C3: for a machine state whose instruction at `pc` is `Fx0A`, if the
keypad snapshot shows a release edge (pressed on the previous tick, not
pressed now), the step stores such a key index into `Vx` and `pc`
advances past the instruction; with no release edge the step is just the
timer phase (`pc` retries the instruction), so a merely held key never
satisfies the wait. -/
theorem c3_getkey_release_edge (s : Chip8State) (δ : Nat) (kp : Chip8Keypad)
    (bl : Bool) (rand : Nat) (hpc : s.pc + 2 ≤ 4096)
    (hop : opOf (fetchInstr s) = 0xf) (hnn : nnOf (fetchInstr s) = 0x0a) :
    ((∃ k, k < 16 ∧ kp.pressed_last k = true ∧ kp.pressed k = false) →
      ∃ k, k < 16 ∧ kp.pressed_last k = true ∧ kp.pressed k = false ∧
        s.update δ kp bl rand =
          some { afterTimers s δ with pc := s.pc + 2, v := updf s.v (xOf (fetchInstr s)) k }) ∧
    ((∀ k, k < 16 → ¬(kp.pressed_last k = true ∧ kp.pressed k = false)) →
      s.update δ kp bl rand = some (afterTimers s δ)) := by
  constructor
  · intro hedge
    obtain ⟨hexec, hlt, hlast, hnow⟩ :=
      exec_getkey_edge { afterTimers s δ with pc := s.pc + 2 } (fetchInstr s)
        kp bl rand hop hnn hedge
    refine ⟨findReleaseGo kp 0 16, hlt, hlast, hnow, ?_⟩
    rw [update_eq_exec s δ kp bl rand hpc, hexec]
    rfl
  · exact update_getkey_blocked s δ kp bl rand hpc hop hnn

/-- C4: every step adds the elapsed microseconds to the accumulator and
then, once per full 16667 µs accumulated, decrements each timer that is
positive (never below 0), keeping exactly the sub-interval remainder in
the accumulator (never clearing it); the only exceptions to the timer
values below are the instructions `Fx15` / `Fx18`, which overwrite the
corresponding timer afterwards. -/
theorem c4_timer_accumulator (s : Chip8State) (δ : Nat) (kp : Chip8Keypad)
    (bl : Bool) (rand : Nat) (s' : Chip8State)
    (h : s.update δ kp bl rand = some s') :
    s'.elapsed_us = (s.elapsed_us + δ) % 16667 ∧
    (¬(opOf (fetchInstr s) = 0xf ∧ nnOf (fetchInstr s) = 0x15) →
      s'.delay_timer = s.delay_timer - (s.elapsed_us + δ) / 16667) ∧
    (¬(opOf (fetchInstr s) = 0xf ∧ nnOf (fetchInstr s) = 0x18) →
      s'.sound_timer = s.sound_timer - (s.elapsed_us + δ) / 16667) := by
  by_cases hpc : s.pc + 2 ≤ 4096
  · rw [update_eq_exec s δ kp bl rand hpc] at h
    obtain ⟨ha, _, hc, hd⟩ := exec_frame _ _ _ _ _ _ h
    exact ⟨ha, hc, hd⟩
  · rw [update_fetch_oob s δ kp bl rand hpc] at h
    exact Option.noConfusion h

/-- C10: a blocked step — `Dxyn` with the render flag false, or `Fx0A`
with no release edge in the snapshot — changes only the delay timer, the
sound timer and the elapsed-µs accumulator (the timer phase); `pc` ends
at its pre-step value and registers, index, ram, stack and display are
untouched (the result is exactly `afterTimers`). -/
theorem c10_blocked_frame (s : Chip8State) (δ : Nat) (kp : Chip8Keypad)
    (rand : Nat) (hpc : s.pc + 2 ≤ 4096) :
    (opOf (fetchInstr s) = 0xd →
      s.update δ kp false rand = some (afterTimers s δ)) ∧
    (opOf (fetchInstr s) = 0xf → nnOf (fetchInstr s) = 0x0a →
      (∀ k, k < 16 → ¬(kp.pressed_last k = true ∧ kp.pressed k = false)) →
      ∀ bl, s.update δ kp bl rand = some (afterTimers s δ)) := by
  constructor
  · intro hop
    exact update_draw_blocked s δ kp rand hpc hop
  · intro hop hnn hno bl
    exact update_getkey_blocked s δ kp bl rand hpc hop hnn hno

theorem updf_self {α : Type} (f : Nat → α) (k : Nat) (a : α) : updf f k a k = a := by
  simp [updf]

theorem updf_other {α : Type} (f : Nat → α) (k j : Nat) (a : α) (h : j ≠ k) :
    updf f k a j = f j := by
  simp [updf, h]

/-- C8: `Fx1E` adds `Vx` to the index register; exactly when the sum
reaches 4096, `VF` is set to 1 and `I` is reduced modulo 4096; when the
sum stays below 4096, `I` becomes the sum and the register file (hence
`VF`) is untouched. -/
theorem c8_fx1e_overflow (s : Chip8State) (δ : Nat) (kp : Chip8Keypad) (bl : Bool)
    (rand : Nat) (s' : Chip8State) (hpc : s.pc + 2 ≤ 4096)
    (hop : opOf (fetchInstr s) = 0xf) (hnn : nnOf (fetchInstr s) = 0x1e)
    (hi : s.i < 4096) (hvx : s.v (xOf (fetchInstr s)) < 256)
    (h : s.update δ kp bl rand = some s') :
    (4096 ≤ s.i + s.v (xOf (fetchInstr s)) →
      s'.v 15 = 1 ∧ s'.i = (s.i + s.v (xOf (fetchInstr s))) % 4096) ∧
    (s.i + s.v (xOf (fetchInstr s)) < 4096 →
      s'.i = s.i + s.v (xOf (fetchInstr s)) ∧ s'.v = s.v) := by
  rw [update_eq_exec s δ kp bl rand hpc, exec_fx1e _ _ _ _ _ hop hnn] at h
  dsimp only [afterTimers] at h
  rw [Nat.mod_eq_of_lt (show s.i + s.v (xOf (fetchInstr s)) < 65536 by omega)] at h
  by_cases hc : 4096 ≤ s.i + s.v (xOf (fetchInstr s))
  · rw [if_pos hc] at h
    injection h with h2
    subst h2
    refine ⟨fun _ => ⟨?_, rfl⟩, fun hlt => absurd hc (by omega)⟩
    exact updf_self s.v 15 1
  · rw [if_neg hc] at h
    injection h with h2
    subst h2
    exact ⟨fun hge => absurd hge hc, fun _ => ⟨rfl, rfl⟩⟩

/-- C9 (amended): after a completed step, the index register is below
4096 when the executed instruction is `Fx1E` (which wraps modulo 4096) or
`Annn` (which loads only 12 bits); but quirk-mode `Fx55` / `Fx65`
increment `I` once per register with no wrap, leaving `I = I + x + 1`,
which can reach 4096 or more. -/
theorem c9_index_register_wrap (s : Chip8State) (δ : Nat) (kp : Chip8Keypad)
    (bl : Bool) (rand : Nat) (s' : Chip8State) (hpc : s.pc + 2 ≤ 4096)
    (h : s.update δ kp bl rand = some s') :
    (opOf (fetchInstr s) = 0xf → nnOf (fetchInstr s) = 0x1e → s'.i < 4096) ∧
    (opOf (fetchInstr s) = 0xa → s'.i < 4096) ∧
    (opOf (fetchInstr s) = 0xf → nnOf (fetchInstr s) = 0x55 →
      s.cosmac_quirks = true → s'.i = s.i + xOf (fetchInstr s) + 1) ∧
    (opOf (fetchInstr s) = 0xf → nnOf (fetchInstr s) = 0x65 →
      s.cosmac_quirks = true → s'.i = s.i + xOf (fetchInstr s) + 1) := by
  rw [update_eq_exec s δ kp bl rand hpc] at h
  refine ⟨?_, ?_, ?_, ?_⟩
  · intro hop hnn
    rw [exec_fx1e _ _ _ _ _ hop hnn] at h
    dsimp only [afterTimers] at h
    split at h
    · injection h with h2; subst h2
      exact Nat.mod_lt _ (by norm_num)
    · injection h with h2; subst h2
      dsimp only
      omega
  · intro hop
    rw [exec_annn _ _ _ _ _ hop] at h
    dsimp only [afterTimers] at h
    injection h with h2; subst h2
    have : nnnOf (fetchInstr s) ≤ 0xfff := Nat.and_le_right
    dsimp only
    omega
  · intro hop hnn hq
    have hres := exec_fx55_quirk_i _ _ _ _ _ _ hop hnn h hq
    exact hres
  · intro hop hnn hq
    have hres := exec_fx65_quirk_i _ _ _ _ _ _ hop hnn h hq
    exact hres

theorem exec_8xy6_quirk_fields (t : Chip8State) (instr : Nat) (kp : Chip8Keypad)
    (bl : Bool) (rand : Nat) (s' : Chip8State)
    (hop : opOf instr = 0x8) (hn : nOf instr = 0x6)
    (h : t.exec instr kp bl rand = some s') (hq : t.cosmac_quirks = true) :
    s'.v 15 = t.v (yOf instr) &&& 1 ∧
    (xOf instr ≠ 15 → s'.v (xOf instr) = t.v (yOf instr) >>> 1) := by
  rw [exec_8xy6_quirk t instr kp bl rand hop hn hq] at h
  injection h with h2
  subst h2
  refine ⟨?_, fun hx => ?_⟩
  · dsimp only
    exact updf_self _ _ _
  · dsimp only
    rw [updf_other _ _ _ _ hx, updf_self]

theorem exec_8xy6_noquirk_fields (t : Chip8State) (instr : Nat) (kp : Chip8Keypad)
    (bl : Bool) (rand : Nat) (s' : Chip8State)
    (hop : opOf instr = 0x8) (hn : nOf instr = 0x6)
    (h : t.exec instr kp bl rand = some s') (hq : t.cosmac_quirks = false) :
    s'.v 15 = t.v (xOf instr) &&& 1 ∧
    (xOf instr ≠ 15 → s'.v (xOf instr) = t.v (xOf instr) >>> 1) := by
  rw [exec_8xy6_noquirk t instr kp bl rand hop hn hq] at h
  injection h with h2
  subst h2
  refine ⟨?_, fun hx => ?_⟩
  · dsimp only
    exact updf_self _ _ _
  · dsimp only
    rw [updf_other _ _ _ _ hx, updf_self]

theorem exec_8xye_quirk_fields (t : Chip8State) (instr : Nat) (kp : Chip8Keypad)
    (bl : Bool) (rand : Nat) (s' : Chip8State)
    (hop : opOf instr = 0x8) (hn : nOf instr = 0xe)
    (h : t.exec instr kp bl rand = some s') (hq : t.cosmac_quirks = true) :
    s'.v 15 = (t.v (yOf instr) &&& 128) >>> 7 ∧
    (xOf instr ≠ 15 → s'.v (xOf instr) = t.v (yOf instr) * 2 % 256) := by
  rw [exec_8xye_quirk t instr kp bl rand hop hn hq] at h
  injection h with h2
  subst h2
  refine ⟨?_, fun hx => ?_⟩
  · dsimp only
    exact updf_self _ _ _
  · dsimp only
    rw [updf_other _ _ _ _ hx, updf_self]

theorem exec_8xye_noquirk_fields (t : Chip8State) (instr : Nat) (kp : Chip8Keypad)
    (bl : Bool) (rand : Nat) (s' : Chip8State)
    (hop : opOf instr = 0x8) (hn : nOf instr = 0xe)
    (h : t.exec instr kp bl rand = some s') (hq : t.cosmac_quirks = false) :
    s'.v 15 = (t.v (xOf instr) &&& 128) >>> 7 ∧
    (xOf instr ≠ 15 → s'.v (xOf instr) = t.v (xOf instr) * 2 % 256) := by
  rw [exec_8xye_noquirk t instr kp bl rand hop hn hq] at h
  injection h with h2
  subst h2
  refine ⟨?_, fun hx => ?_⟩
  · dsimp only
    exact updf_self _ _ _
  · dsimp only
    rw [updf_other _ _ _ _ hx, updf_self]

set_option maxRecDepth 4000 in
theorem and128_shr7 : ∀ v, v < 256 → (v &&& 128) >>> 7 = v / 128 := by decide

/-- C6: the arithmetic instructions wrap modulo 256 and set the flag
exactly: `7xnn` stores the wrapped sum and (for `x ≠ 15`) leaves `VF`
alone; `8xy4` sets `VF` to 1 exactly on carry; `8xy5` / `8xy7` clear `VF`
exactly on borrow; in each case the stored `Vx` is below 256 and congruent
to the exact sum / difference modulo 256. -/
theorem c6_arith_wrap_flags (s : Chip8State) (δ : Nat) (kp : Chip8Keypad) (bl : Bool)
    (rand : Nat) (hpc : s.pc + 2 ≤ 4096)
    (hvx : s.v (xOf (fetchInstr s)) < 256) (hvy : s.v (yOf (fetchInstr s)) < 256) :
    (opOf (fetchInstr s) = 0x7 → ∀ s', s.update δ kp bl rand = some s' →
      s'.v (xOf (fetchInstr s)) < 256 ∧
      (s'.v (xOf (fetchInstr s)) : ℤ) ≡
        s.v (xOf (fetchInstr s)) + nnOf (fetchInstr s) [ZMOD 256] ∧
      (xOf (fetchInstr s) ≠ 15 → s'.v 15 = s.v 15)) ∧
    (opOf (fetchInstr s) = 0x8 → nOf (fetchInstr s) = 0x4 →
      ∀ s', s.update δ kp bl rand = some s' →
      s'.v 15 = (if 256 ≤ s.v (xOf (fetchInstr s)) + s.v (yOf (fetchInstr s)) then 1 else 0) ∧
      (xOf (fetchInstr s) ≠ 15 → s'.v (xOf (fetchInstr s)) < 256 ∧
        (s'.v (xOf (fetchInstr s)) : ℤ) ≡
          s.v (xOf (fetchInstr s)) + s.v (yOf (fetchInstr s)) [ZMOD 256])) ∧
    (opOf (fetchInstr s) = 0x8 → nOf (fetchInstr s) = 0x5 →
      ∀ s', s.update δ kp bl rand = some s' →
      s'.v 15 = (if s.v (xOf (fetchInstr s)) < s.v (yOf (fetchInstr s)) then 0 else 1) ∧
      (xOf (fetchInstr s) ≠ 15 → s'.v (xOf (fetchInstr s)) < 256 ∧
        (s'.v (xOf (fetchInstr s)) : ℤ) ≡
          (s.v (xOf (fetchInstr s)) : ℤ) - s.v (yOf (fetchInstr s)) [ZMOD 256])) ∧
    (opOf (fetchInstr s) = 0x8 → nOf (fetchInstr s) = 0x7 →
      ∀ s', s.update δ kp bl rand = some s' →
      s'.v 15 = (if s.v (yOf (fetchInstr s)) < s.v (xOf (fetchInstr s)) then 0 else 1) ∧
      (xOf (fetchInstr s) ≠ 15 → s'.v (xOf (fetchInstr s)) < 256 ∧
        (s'.v (xOf (fetchInstr s)) : ℤ) ≡
          (s.v (yOf (fetchInstr s)) : ℤ) - s.v (xOf (fetchInstr s)) [ZMOD 256])) := by
  refine ⟨?_, ?_, ?_, ?_⟩
  · intro hop s' h
    rw [update_eq_exec s δ kp bl rand hpc] at h
    dsimp only [afterTimers] at h
    rw [exec_7xnn _ _ _ _ _ hop] at h
    injection h with h2
    subst h2
    refine ⟨?_, ?_, fun hx => ?_⟩
    · dsimp only
      rw [updf_self]
      exact Nat.mod_lt _ (by norm_num)
    · dsimp only
      rw [updf_self]
      unfold Int.ModEq
      omega
    · dsimp only
      rw [updf_other _ _ _ _ (Ne.symm hx)]
  · intro hop hn s' h
    rw [update_eq_exec s δ kp bl rand hpc] at h
    dsimp only [afterTimers] at h
    rw [exec_8xy4 _ _ _ _ _ hop hn] at h
    injection h with h2
    subst h2
    refine ⟨?_, fun hx => ⟨?_, ?_⟩⟩
    · dsimp only
      rw [updf_self]
    · dsimp only
      rw [updf_other _ _ _ _ hx, updf_self]
      exact Nat.mod_lt _ (by norm_num)
    · dsimp only
      rw [updf_other _ _ _ _ hx, updf_self]
      unfold Int.ModEq
      omega
  · intro hop hn s' h
    rw [update_eq_exec s δ kp bl rand hpc] at h
    dsimp only [afterTimers] at h
    rw [exec_8xy5 _ _ _ _ _ hop hn] at h
    injection h with h2
    subst h2
    refine ⟨?_, fun hx => ⟨?_, ?_⟩⟩
    · dsimp only
      rw [updf_self]
    · dsimp only
      rw [updf_other _ _ _ _ hx, updf_self]
      exact Nat.mod_lt _ (by norm_num)
    · dsimp only
      rw [updf_other _ _ _ _ hx, updf_self]
      unfold Int.ModEq
      omega
  · intro hop hn s' h
    rw [update_eq_exec s δ kp bl rand hpc] at h
    dsimp only [afterTimers] at h
    rw [exec_8xy7 _ _ _ _ _ hop hn] at h
    injection h with h2
    subst h2
    refine ⟨?_, fun hx => ⟨?_, ?_⟩⟩
    · dsimp only
      rw [updf_self]
    · dsimp only
      rw [updf_other _ _ _ _ hx, updf_self]
      exact Nat.mod_lt _ (by norm_num)
    · dsimp only
      rw [updf_other _ _ _ _ hx, updf_self]
      unfold Int.ModEq
      omega

/-- C7 (amended): in quirk mode `8xy6` / `8xyE` first copy `Vy` into `Vx`
and shift that, with `VF` receiving the bit shifted out; without quirks
`Vx` is shifted in place and `Vy` is ignored.  Consequently, when
`x ≠ 15` and `Vx ≠ Vy`, the two modes produce different `(Vx, VF)` result
pairs (`Vx` alone can coincide, and for `x = 15` even the whole resulting
register file can coincide). -/
theorem c7_shift_quirk_modes (s : Chip8State) (δ : Nat) (kp : Chip8Keypad) (bl : Bool)
    (rand : Nat) (hpc : s.pc + 2 ≤ 4096) (hop : opOf (fetchInstr s) = 0x8)
    (hvx : s.v (xOf (fetchInstr s)) < 256) (hvy : s.v (yOf (fetchInstr s)) < 256) :
    (nOf (fetchInstr s) = 0x6 → s.cosmac_quirks = true →
      ∀ s', s.update δ kp bl rand = some s' →
      s'.v 15 = s.v (yOf (fetchInstr s)) % 2 ∧
      (xOf (fetchInstr s) ≠ 15 →
        s'.v (xOf (fetchInstr s)) = s.v (yOf (fetchInstr s)) / 2)) ∧
    (nOf (fetchInstr s) = 0x6 → s.cosmac_quirks = false →
      ∀ s', s.update δ kp bl rand = some s' →
      s'.v 15 = s.v (xOf (fetchInstr s)) % 2 ∧
      (xOf (fetchInstr s) ≠ 15 →
        s'.v (xOf (fetchInstr s)) = s.v (xOf (fetchInstr s)) / 2)) ∧
    (nOf (fetchInstr s) = 0xe → s.cosmac_quirks = true →
      ∀ s', s.update δ kp bl rand = some s' →
      s'.v 15 = s.v (yOf (fetchInstr s)) / 128 ∧
      (xOf (fetchInstr s) ≠ 15 →
        s'.v (xOf (fetchInstr s)) = s.v (yOf (fetchInstr s)) * 2 % 256)) ∧
    (nOf (fetchInstr s) = 0xe → s.cosmac_quirks = false →
      ∀ s', s.update δ kp bl rand = some s' →
      s'.v 15 = s.v (xOf (fetchInstr s)) / 128 ∧
      (xOf (fetchInstr s) ≠ 15 →
        s'.v (xOf (fetchInstr s)) = s.v (xOf (fetchInstr s)) * 2 % 256)) ∧
    ((nOf (fetchInstr s) = 0x6 ∨ nOf (fetchInstr s) = 0xe) →
      xOf (fetchInstr s) ≠ 15 →
      s.v (xOf (fetchInstr s)) ≠ s.v (yOf (fetchInstr s)) →
      ∀ st' sf',
        ({ s with cosmac_quirks := true } : Chip8State).update δ kp bl rand = some st' →
        ({ s with cosmac_quirks := false } : Chip8State).update δ kp bl rand = some sf' →
        (st'.v (xOf (fetchInstr s)), st'.v 15) ≠
          (sf'.v (xOf (fetchInstr s)), sf'.v 15)) := by
  refine ⟨?_, ?_, ?_, ?_, ?_⟩
  · intro hn hq s' h
    rw [update_eq_exec s δ kp bl rand hpc] at h
    dsimp only [afterTimers] at h
    obtain ⟨h15, hxv⟩ := exec_8xy6_quirk_fields _ _ _ _ _ _ hop hn h hq
    constructor
    · rw [h15, Nat.and_one_is_mod]
    · intro hx
      rw [hxv hx, Nat.shiftRight_eq_div_pow]
  · intro hn hq s' h
    rw [update_eq_exec s δ kp bl rand hpc] at h
    dsimp only [afterTimers] at h
    obtain ⟨h15, hxv⟩ := exec_8xy6_noquirk_fields _ _ _ _ _ _ hop hn h hq
    constructor
    · rw [h15, Nat.and_one_is_mod]
    · intro hx
      rw [hxv hx, Nat.shiftRight_eq_div_pow]
  · intro hn hq s' h
    rw [update_eq_exec s δ kp bl rand hpc] at h
    dsimp only [afterTimers] at h
    obtain ⟨h15, hxv⟩ := exec_8xye_quirk_fields _ _ _ _ _ _ hop hn h hq
    constructor
    · rw [h15, and128_shr7 _ hvy]
    · exact hxv
  · intro hn hq s' h
    rw [update_eq_exec s δ kp bl rand hpc] at h
    dsimp only [afterTimers] at h
    obtain ⟨h15, hxv⟩ := exec_8xye_noquirk_fields _ _ _ _ _ _ hop hn h hq
    constructor
    · rw [h15, and128_shr7 _ hvx]
    · exact hxv
  · intro hn6e hx hne st' sf' hT hF
    have hpcT : ({ s with cosmac_quirks := true } : Chip8State).pc + 2 ≤ 4096 := hpc
    have hpcF : ({ s with cosmac_quirks := false } : Chip8State).pc + 2 ≤ 4096 := hpc
    rw [update_eq_exec _ δ kp bl rand hpcT] at hT
    rw [update_eq_exec _ δ kp bl rand hpcF] at hF
    dsimp only [afterTimers] at hT hF
    have hfT : fetchInstr ({ s with cosmac_quirks := true } : Chip8State) = fetchInstr s := rfl
    have hfF : fetchInstr ({ s with cosmac_quirks := false } : Chip8State) = fetchInstr s := rfl
    rw [hfT] at hT
    rw [hfF] at hF
    rcases hn6e with hn | hn
    · obtain ⟨hT15, hTx⟩ := exec_8xy6_quirk_fields _ _ _ _ _ _ hop hn hT rfl
      obtain ⟨hF15, hFx⟩ := exec_8xy6_noquirk_fields _ _ _ _ _ _ hop hn hF rfl
      intro hcontra
      have h1 : st'.v (xOf (fetchInstr s)) = sf'.v (xOf (fetchInstr s)) :=
        congrArg Prod.fst hcontra
      have h2 : st'.v 15 = sf'.v 15 := congrArg Prod.snd hcontra
      rw [hTx hx, hFx hx] at h1
      rw [hT15, hF15] at h2
      rw [Nat.shiftRight_eq_div_pow, Nat.shiftRight_eq_div_pow] at h1
      rw [Nat.and_one_is_mod, Nat.and_one_is_mod] at h2
      simp only [pow_one] at h1
      dsimp only at h1 h2
      exact hne (by omega)
    · obtain ⟨hT15, hTx⟩ := exec_8xye_quirk_fields _ _ _ _ _ _ hop hn hT rfl
      obtain ⟨hF15, hFx⟩ := exec_8xye_noquirk_fields _ _ _ _ _ _ hop hn hF rfl
      intro hcontra
      have h1 : st'.v (xOf (fetchInstr s)) = sf'.v (xOf (fetchInstr s)) :=
        congrArg Prod.fst hcontra
      have h2 : st'.v 15 = sf'.v 15 := congrArg Prod.snd hcontra
      rw [hTx hx, hFx hx] at h1
      rw [hT15, hF15] at h2
      dsimp only at h1 h2
      rw [and128_shr7 _ hvy, and128_shr7 _ hvx] at h2
      exact hne (by omega)

/-- C9 counterexample: from a freshly created machine (I = 0, quirk mode)
running the two-instruction program `ANNN nnn=0xFFF; F055`, both steps
complete (no panic) and the index register ends at 4096 — not below
4096 — because the quirk-mode `Fx55` increment does not wrap. -/
theorem c9_counterexample :
    (((Chip8State.new [0xAF, 0xFF, 0xF0, 0x55] true).update 0 kpNone false 0).bind
      (fun s1 => s1.update 0 kpNone false 0)).map Chip8State.i = some 4096 := by
  decide

/-- C7 counterexample: for the instruction `8F26` (shift right with
`x = 15`, `y = 2`) from a state with `VF = 0 ≠ 2 = V2`, the quirk-mode
and non-quirk-mode steps produce identical results — the same register
file, display, `pc`, index, ram and timers — so "the two modes produce
different results when Vx differs from Vy" fails as stated. -/
theorem c7_counterexample :
    (witState 0x8F 0x26 (fun j => if j = 2 then 2 else 0) 0 true).v 15 ≠
      (witState 0x8F 0x26 (fun j => if j = 2 then 2 else 0) 0 true).v 2 ∧
    ((witState 0x8F 0x26 (fun j => if j = 2 then 2 else 0) 0 true).update 0 kpNone
        false 0).map
      (fun t => ((List.range 16).map t.v, (List.range 2048).map t.display, t.pc, t.i,
        (List.range 4096).map t.ram, t.delay_timer, t.sound_timer, t.elapsed_us,
        t.stack.top)) =
    ((witState 0x8F 0x26 (fun j => if j = 2 then 2 else 0) 0 false).update 0 kpNone
        false 0).map
      (fun t => ((List.range 16).map t.v, (List.range 2048).map t.display, t.pc, t.i,
        (List.range 4096).map t.ram, t.delay_timer, t.sound_timer, t.elapsed_us,
        t.stack.top)) := by
  constructor
  · decide
  · rfl

/-- Any instruction outside the recognized encoding table is fatal: the
decode-execute returns `none` (it is never treated as a no-op). -/
theorem exec_unrecognized (s : Chip8State) (instr : Nat) (kp : Chip8Keypad)
    (bl : Bool) (rand : Nat) (hrec : recognizedInstr instr = false) :
    s.exec instr kp bl rand = none := by
  have hle : opOf instr ≤ 15 := opOf_le instr
  have hcs : opOf instr = 0 ∨ opOf instr = 1 ∨ opOf instr = 2 ∨ opOf instr = 3 ∨
      opOf instr = 4 ∨ opOf instr = 5 ∨ opOf instr = 6 ∨ opOf instr = 7 ∨
      opOf instr = 8 ∨ opOf instr = 9 ∨ opOf instr = 10 ∨ opOf instr = 11 ∨
      opOf instr = 12 ∨ opOf instr = 13 ∨ opOf instr = 14 ∨ opOf instr = 15 := by
    omega
  rcases hcs with hop|hop|hop|hop|hop|hop|hop|hop|hop|hop|hop|hop|hop|hop|hop|hop
  all_goals simp only [recognizedInstr, hop] at hrec
  all_goals norm_num at hrec
  · obtain ⟨h1, h2⟩ := hrec
    simp [Chip8State.exec, execOp0, hop, h1, h2]
  · simp [Chip8State.exec, hop, hrec]
  · obtain ⟨h1, h2⟩ := hrec
    have hn0 : nOf instr ≠ 0 := by omega
    have hn1 : nOf instr ≠ 1 := by omega
    have hn2 : nOf instr ≠ 2 := by omega
    have hn3 : nOf instr ≠ 3 := by omega
    have hn4 : nOf instr ≠ 4 := by omega
    have hn5 : nOf instr ≠ 5 := by omega
    have hn6 : nOf instr ≠ 6 := by omega
    have hn7 : nOf instr ≠ 7 := by omega
    simp [Chip8State.exec, execOp8, hop, hn0, hn1, hn2, hn3, hn4, hn5, hn6, hn7, h2]
  · simp [Chip8State.exec, hop, hrec]
  · obtain ⟨h1, h2⟩ := hrec
    simp [Chip8State.exec, execOpE, hop, h1, h2]
  · obtain ⟨h1, h2, h3, h4, h5, h6, h7, h8, h9⟩ := hrec
    simp [Chip8State.exec, execOpF, hop, h1, h2, h3, h4, h5, h6, h7, h8, h9]

/-- `2nnn` with a full call stack is fatal (stack overflow panic). -/
theorem exec_2nnn_overflow (s : Chip8State) (instr : Nat) (kp : Chip8Keypad)
    (bl : Bool) (rand : Nat) (hop : opOf instr = 0x2) (htop : s.stack.top = 64) :
    s.exec instr kp bl rand = none := by
  simp [Chip8State.exec, hop, Chip8Stack.push, htop, STACK_CAPACITY]

/-- `00EE` with an empty call stack is fatal (stack underflow panic). -/
theorem exec_00ee_underflow (s : Chip8State) (instr : Nat) (kp : Chip8Keypad)
    (bl : Bool) (rand : Nat) (hi : instr = 0x00ee) (htop : s.stack.top = 0) :
    s.exec instr kp bl rand = none := by
  subst hi
  simp [Chip8State.exec, execOp0, Chip8Stack.pop, htop,
    show opOf 0x00ee = 0 from by decide]

/-- C5: the fatal conditions all halt interpretation (the step returns
`none`, modelling the panic): a fetch whose address `pc` or `pc + 1` lies
outside the 4096-byte memory; an unrecognized instruction encoding (never
executed as a no-op); a call-stack push past capacity 64 (pushing 64
return addresses succeeds and fills the stack, the 65th push fails); a
`2nnn` step on a full stack; a pop from an empty stack; a `00EE` step on
an empty stack. -/
theorem c5_fatal_conditions :
    (∀ (s : Chip8State) (δ : Nat) (kp : Chip8Keypad) (bl : Bool) (rand : Nat),
      ¬s.pc + 2 ≤ 4096 → s.update δ kp bl rand = none) ∧
    (∀ (s : Chip8State) (δ : Nat) (kp : Chip8Keypad) (bl : Bool) (rand : Nat),
      s.pc + 2 ≤ 4096 → recognizedInstr (fetchInstr s) = false →
      s.update δ kp bl rand = none) ∧
    (∀ vals : List Nat, vals.length = 64 →
      ∃ st', pushMany { buffer := fun _ => 0, top := 0 } vals = some st' ∧
        st'.top = 64 ∧ ∀ val, st'.push val = none) ∧
    (∀ st : Chip8Stack, st.top = 0 → st.pop = none) ∧
    (∀ (s : Chip8State) (δ : Nat) (kp : Chip8Keypad) (bl : Bool) (rand : Nat),
      s.pc + 2 ≤ 4096 → opOf (fetchInstr s) = 0x2 → s.stack.top = 64 →
      s.update δ kp bl rand = none) ∧
    (∀ (s : Chip8State) (δ : Nat) (kp : Chip8Keypad) (bl : Bool) (rand : Nat),
      s.pc + 2 ≤ 4096 → fetchInstr s = 0x00ee → s.stack.top = 0 →
      s.update δ kp bl rand = none) := by
  refine ⟨?_, ?_, ?_, ?_, ?_, ?_⟩
  · intro s δ kp bl rand hpc
    exact update_fetch_oob s δ kp bl rand hpc
  · intro s δ kp bl rand hpc hrec
    rw [update_eq_exec s δ kp bl rand hpc]
    exact exec_unrecognized _ _ _ _ _ hrec
  · intro vals hlen
    obtain ⟨st', hpush, htop⟩ := pushMany_sound vals { buffer := fun _ => 0, top := 0 }
      (by simp [hlen])
    refine ⟨st', hpush, by simp [htop, hlen], fun val => ?_⟩
    unfold Chip8Stack.push STACK_CAPACITY
    rw [if_pos (by simp [htop, hlen])]
  · intro st htop
    unfold Chip8Stack.pop
    rw [if_pos htop]
  · intro s δ kp bl rand hpc hop htop
    rw [update_eq_exec s δ kp bl rand hpc]
    exact exec_2nnn_overflow _ _ _ _ _ hop htop
  · intro s δ kp bl rand hpc hi htop
    rw [update_eq_exec s δ kp bl rand hpc]
    exact exec_00ee_underflow _ _ _ _ _ hi htop

theorem updf_idem {α : Type} (f : Nat → α) (k : Nat) (a : α) :
    updf (updf f k a) k a = updf f k a := by
  funext j
  by_cases h : j = k <;> simp [updf, h]

theorem xor_decide_or_of_disjoint (b : Bool) (p q : Prop) [Decidable p] [Decidable q]
    (h : ¬(p ∧ q)) : xor (xor b (decide p)) (decide q) = xor b (decide (p ∨ q)) := by
  by_cases hp : p
  · by_cases hq : q
    · exact absurd ⟨hp, hq⟩ h
    · simp [hp, hq]
  · by_cases hq : q
    · simp [hp, hq]
    · simp [hp, hq]

theorem drawRowGo_fst : ∀ (count data posy posx : Nat) (px : Nat → Bool)
    (v : Nat → Nat) (idx : Nat), posx < 64 →
    (drawRowGo count data posx posy px v).1 idx =
      xor (px idx) (decide (∃ t, t < count ∧ posx + t < 64 ∧
        idx = posx + t + posy * 64 ∧ (data >>> (count - 1 - t)) &&& 1 = 1)) := by
  intro count
  induction count with
  | zero =>
    intro data posy posx px v idx hposx
    simp [drawRowGo]
  | succ c ih =>
    intro data posy posx px v idx hposx
    rw [drawRowGo]
    simp only [DISPLAY_WIDTH]
    by_cases hstop : 64 ≤ posx + 1
    · rw [if_pos hstop]
      dsimp only
      by_cases hv : (data >>> c) &&& 1 = 1
      · rw [if_pos hv]
        by_cases hidx : idx = posx + posy * 64
        · have hP : ∃ t, t < c + 1 ∧ posx + t < 64 ∧ idx = posx + t + posy * 64 ∧
              (data >>> (c + 1 - 1 - t)) &&& 1 = 1 :=
            ⟨0, by omega, by omega, by omega, hv⟩
          rw [decide_eq_true hP, hidx, updf_self, Bool.xor_true]
        · have hnP : ¬∃ t, t < c + 1 ∧ posx + t < 64 ∧ idx = posx + t + posy * 64 ∧
              (data >>> (c + 1 - 1 - t)) &&& 1 = 1 := by
            rintro ⟨t, ht, hlt, heq, -⟩
            omega
          rw [decide_eq_false hnP, updf_other _ _ _ _ hidx, Bool.xor_false]
      · rw [if_neg hv]
        have hnP : ¬∃ t, t < c + 1 ∧ posx + t < 64 ∧ idx = posx + t + posy * 64 ∧
            (data >>> (c + 1 - 1 - t)) &&& 1 = 1 := by
          rintro ⟨t, ht, hlt, heq, hbit⟩
          have ht0 : t = 0 := by omega
          subst ht0
          exact hv hbit
        rw [decide_eq_false hnP, Bool.xor_false]
    · rw [if_neg hstop]
      rw [ih data posy (posx + 1) _ _ idx (by omega)]
      have hpx' : (if (data >>> c) &&& 1 = 1 then
          updf px (posx + posy * 64) (!px (posx + posy * 64)) else px) idx =
          xor (px idx) (decide ((data >>> c) &&& 1 = 1 ∧ idx = posx + posy * 64)) := by
        by_cases hv : (data >>> c) &&& 1 = 1
        · by_cases hidx : idx = posx + posy * 64
          · rw [if_pos hv, decide_eq_true ⟨hv, hidx⟩, hidx, updf_self, Bool.xor_true]
          · rw [if_pos hv, decide_eq_false (by rintro ⟨-, h⟩; exact hidx h),
              updf_other _ _ _ _ hidx, Bool.xor_false]
        · rw [if_neg hv, decide_eq_false (by rintro ⟨h, -⟩; exact hv h), Bool.xor_false]
      rw [hpx', xor_decide_or_of_disjoint]
      · congr 1
        rw [decide_eq_decide]
        constructor
        · rintro (⟨hv, hidx⟩ | ⟨t, ht, hlt, heq, hbit⟩)
          · exact ⟨0, by omega, by omega, by omega, hv⟩
          · refine ⟨t + 1, by omega, by omega, by omega, ?_⟩
            have harith : c + 1 - 1 - (t + 1) = c - 1 - t := by omega
            rw [harith]
            exact hbit
        · rintro ⟨t, ht, hlt, heq, hbit⟩
          rcases Nat.eq_zero_or_pos t with ht0 | htpos
          · subst ht0
            exact Or.inl ⟨hbit, by omega⟩
          · refine Or.inr ⟨t - 1, by omega, by omega, by omega, ?_⟩
            have harith : c - 1 - (t - 1) = c + 1 - 1 - t := by omega
            rw [harith]
            exact hbit
      · rintro ⟨⟨hv, hidx⟩, ⟨t, ht, hlt, heq, hbit⟩⟩
        omega

theorem drawRowGo_snd : ∀ (count data posy posx : Nat) (px : Nat → Bool)
    (v : Nat → Nat), posx < 64 →
    (drawRowGo count data posx posy px v).2 =
      (if ∃ t, t < count ∧ posx + t < 64 ∧ (data >>> (count - 1 - t)) &&& 1 = 1 ∧
          px (posx + t + posy * 64) = true
        then updf v 15 1 else v) := by
  intro count
  induction count with
  | zero =>
    intro data posy posx px v hposx
    rw [if_neg (by rintro ⟨t, ht, -⟩; omega)]
    rfl
  | succ c ih =>
    intro data posy posx px v hposx
    rw [drawRowGo]
    simp only [DISPLAY_WIDTH]
    by_cases hstop : 64 ≤ posx + 1
    · rw [if_pos hstop]
      dsimp only
      by_cases hv : (data >>> c) &&& 1 = 1
      · rw [if_pos hv]
        by_cases hpix : px (posx + posy * 64) = true
        · rw [if_pos hpix,
            if_pos (show ∃ t, t < c + 1 ∧ posx + t < 64 ∧
              (data >>> (c + 1 - 1 - t)) &&& 1 = 1 ∧ px (posx + t + posy * 64) = true
              from ⟨0, by omega, by omega, hv, by simpa using hpix⟩)]
        · have hnE : ¬∃ t, t < c + 1 ∧ posx + t < 64 ∧
              (data >>> (c + 1 - 1 - t)) &&& 1 = 1 ∧ px (posx + t + posy * 64) = true := by
            rintro ⟨t, ht, hlt, hbit, hp⟩
            have ht0 : t = 0 := by omega
            subst ht0
            exact hpix (by simpa using hp)
          rw [if_neg hpix, if_neg hnE]
      · have hnE : ¬∃ t, t < c + 1 ∧ posx + t < 64 ∧
            (data >>> (c + 1 - 1 - t)) &&& 1 = 1 ∧ px (posx + t + posy * 64) = true := by
          rintro ⟨t, ht, hlt, hbit, -⟩
          have ht0 : t = 0 := by omega
          subst ht0
          exact hv hbit
        rw [if_neg hv, if_neg hnE]
    · rw [if_neg hstop]
      rw [ih data posy (posx + 1) _ _ (by omega)]
      have hpx' : ∀ t, t < c → posx + 1 + t < 64 →
          (if (data >>> c) &&& 1 = 1 then
            updf px (posx + posy * 64) (!px (posx + posy * 64)) else px)
            (posx + 1 + t + posy * 64) = px (posx + 1 + t + posy * 64) := by
        intro t ht hlt
        by_cases hv : (data >>> c) &&& 1 = 1
        · rw [if_pos hv, updf_other _ _ _ _ (by omega)]
        · rw [if_neg hv]
      have hEiff : (∃ t, t < c ∧ posx + 1 + t < 64 ∧ (data >>> (c - 1 - t)) &&& 1 = 1 ∧
          (if (data >>> c) &&& 1 = 1 then
            updf px (posx + posy * 64) (!px (posx + posy * 64)) else px)
            (posx + 1 + t + posy * 64) = true) ↔
          (∃ t, t < c ∧ posx + 1 + t < 64 ∧ (data >>> (c - 1 - t)) &&& 1 = 1 ∧
            px (posx + 1 + t + posy * 64) = true) := by
        constructor
        · rintro ⟨t, ht, hlt, hbit, hp⟩
          exact ⟨t, ht, hlt, hbit, by rw [← hpx' t ht hlt]; exact hp⟩
        · rintro ⟨t, ht, hlt, hbit, hp⟩
          exact ⟨t, ht, hlt, hbit, by rw [hpx' t ht hlt]; exact hp⟩
      rw [if_congr hEiff rfl rfl]
      by_cases hv : (data >>> c) &&& 1 = 1
      · by_cases hpix : px (posx + posy * 64) = true
        · rw [if_pos hv, if_pos hpix]
          have hout : ∃ t, t < c + 1 ∧ posx + t < 64 ∧
              (data >>> (c + 1 - 1 - t)) &&& 1 = 1 ∧ px (posx + t + posy * 64) = true :=
            ⟨0, by omega, by omega, hv, by simpa using hpix⟩
          rw [if_pos hout]
          by_cases hE : ∃ t, t < c ∧ posx + 1 + t < 64 ∧ (data >>> (c - 1 - t)) &&& 1 = 1 ∧
              px (posx + 1 + t + posy * 64) = true
          · rw [if_pos hE, updf_idem]
          · rw [if_neg hE]
        · rw [if_pos hv, if_neg hpix]
          congr 1
          rw [eq_iff_iff]
          constructor
          · rintro ⟨t, ht, hlt, hbit, hp⟩
            refine ⟨t + 1, by omega, by omega, ?_, ?_⟩
            · have harith : c + 1 - 1 - (t + 1) = c - 1 - t := by omega
              rw [harith]
              exact hbit
            · have harith : posx + (t + 1) + posy * 64 = posx + 1 + t + posy * 64 := by omega
              rw [harith]
              exact hp
          · rintro ⟨t, ht, hlt, hbit, hp⟩
            have htpos : 0 < t := by
              rcases Nat.eq_zero_or_pos t with ht0 | htpos
              · subst ht0
                exact absurd (by simpa using hp) hpix
              · exact htpos
            refine ⟨t - 1, by omega, by omega, ?_, ?_⟩
            · have harith : c - 1 - (t - 1) = c + 1 - 1 - t := by omega
              rw [harith]
              exact hbit
            · have harith : posx + 1 + (t - 1) = posx + t := by omega
              rw [harith]
              exact hp
      · rw [if_neg hv]
        congr 1
        rw [eq_iff_iff]
        constructor
        · rintro ⟨t, ht, hlt, hbit, hp⟩
          refine ⟨t + 1, by omega, by omega, ?_, ?_⟩
          · have harith : c + 1 - 1 - (t + 1) = c - 1 - t := by omega
            rw [harith]
            exact hbit
          · have harith : posx + (t + 1) + posy * 64 = posx + 1 + t + posy * 64 := by omega
            rw [harith]
            exact hp
        · rintro ⟨t, ht, hlt, hbit, hp⟩
          have htpos : 0 < t := by
            rcases Nat.eq_zero_or_pos t with ht0 | htpos
            · subst ht0
              exact absurd hbit hv
            · exact htpos
          refine ⟨t - 1, by omega, by omega, ?_, ?_⟩
          · have harith : c - 1 - (t - 1) = c + 1 - 1 - t := by omega
            rw [harith]
            exact hbit
          · have harith : posx + 1 + (t - 1) = posx + t := by omega
            rw [harith]
            exact hp


theorem drawRows_char (ram : Nat → Nat) (addr x : Nat) (hx : x ≠ 15) :
    ∀ (r row posy : Nat) (px : Nat → Bool) (v : Nat → Nat)
      (out : (Nat → Bool) × (Nat → Nat)), posy < 32 →
    drawRows ram addr x r row posy px v = some out →
    (∀ idx, out.1 idx = xor (px idx)
      (decide (rowsHit ram addr (v x % 64) r row posy idx))) ∧
    (out.2 = if rowsColl ram addr (v x % 64) r row posy px
      then updf v 15 1 else v) := by
  intro r
  induction r with
  | zero =>
    intro row posy px v out hposy h
    injection h with h2
    subst h2
    constructor
    · intro idx
      rw [decide_eq_false (by unfold rowsHit; rintro ⟨u, hu, -⟩; omega), Bool.xor_false]
    · rw [if_neg (by unfold rowsColl; rintro ⟨u, hu, -⟩; omega)]
  | succ r ih =>
    intro row posy px v out hposy h
    rw [drawRows] at h
    simp only [DISPLAY_WIDTH, DISPLAY_HEIGHT] at h
    by_cases hbound : addr + row < 4096
    · rw [if_pos hbound] at h
      have hposxlt : v x % 64 < 64 := Nat.mod_lt _ (by norm_num)
      by_cases hstop : 32 ≤ posy + 1
      · rw [if_pos hstop] at h
        injection h with h2
        subst h2
        constructor
        · intro idx
          rw [drawRowGo_fst 8 (ram (addr + row)) posy (v x % 64) px v idx hposxlt]
          congr 1
          rw [decide_eq_decide]
          unfold rowsHit
          constructor
          · rintro ⟨t, ht, hlt, heq, hbit⟩
            refine ⟨0, by omega, by omega, t, by omega, by omega, by omega, ?_⟩
            have h1 : addr + row + 0 = addr + row := by omega
            have h2 : (7 : Nat) - t = 8 - 1 - t := by omega
            rw [h1, h2]
            exact hbit
          · rintro ⟨u, hu, hulty, t, ht, hlt, heq, hbit⟩
            have hu0 : u = 0 := by omega
            subst hu0
            refine ⟨t, by omega, by omega, by omega, ?_⟩
            have h1 : (8 : Nat) - 1 - t = 7 - t := by omega
            have h2 : addr + row + 0 = addr + row := by omega
            rw [h1, ← h2]
            exact hbit
        · rw [drawRowGo_snd 8 (ram (addr + row)) posy (v x % 64) px v hposxlt]
          congr 1
          rw [eq_iff_iff]
          unfold rowsColl
          constructor
          · rintro ⟨t, ht, hlt, hbit, hp⟩
            refine ⟨0, by omega, by omega, t, by omega, by omega, ?_, ?_⟩
            · have h1 : addr + row + 0 = addr + row := by omega
              have h2 : (7 : Nat) - t = 8 - 1 - t := by omega
              rw [h1, h2]
              exact hbit
            · have h1 : posy + 0 = posy := by omega
              rw [h1]
              exact hp
          · rintro ⟨u, hu, hulty, t, ht, hlt, hbit, hp⟩
            have hu0 : u = 0 := by omega
            subst hu0
            refine ⟨t, by omega, by omega, ?_, ?_⟩
            · have h1 : (8 : Nat) - 1 - t = 7 - t := by omega
              have h2 : addr + row + 0 = addr + row := by omega
              rw [h1, ← h2]
              exact hbit
            · have h1 : posy + 0 = posy := by omega
              rw [← h1]
              exact hp
      · rw [if_neg hstop] at h
        have hv1 := drawRowGo_snd 8 (ram (addr + row)) posy (v x % 64) px v hposxlt
        have hv1x : (drawRowGo 8 (ram (addr + row)) (v x % 64) posy px v).2 x = v x := by
          rw [hv1]
          by_cases hcoll : ∃ t, t < 8 ∧ v x % 64 + t < 64 ∧
              (ram (addr + row) >>> (8 - 1 - t)) &&& 1 = 1 ∧
              px (v x % 64 + t + posy * 64) = true
          · rw [if_pos hcoll, updf_other _ _ _ _ hx]
          · rw [if_neg hcoll]
        have hpx1 := fun idx =>
          drawRowGo_fst 8 (ram (addr + row)) posy (v x % 64) px v idx hposxlt
        obtain ⟨ihf, ihs⟩ := ih (row + 1) (posy + 1)
          (drawRowGo 8 (ram (addr + row)) (v x % 64) posy px v).1
          (drawRowGo 8 (ram (addr + row)) (v x % 64) posy px v).2
          out (by omega) h
        rw [hv1x] at ihf ihs
        have hlater : ∀ u t, u < r → posy + 1 + u < 32 → t < 8 → v x % 64 + t < 64 →
            (drawRowGo 8 (ram (addr + row)) (v x % 64) posy px v).1
              (v x % 64 + t + (posy + 1 + u) * 64) =
            px (v x % 64 + t + (posy + 1 + u) * 64) := by
          intro u t hu hulty ht hlt
          rw [hpx1, decide_eq_false, Bool.xor_false]
          rintro ⟨t2, ht2, hlt2, heq2, -⟩
          omega
        constructor
        · intro idx
          rw [ihf idx, hpx1 idx, xor_decide_or_of_disjoint]
          · congr 1
            rw [decide_eq_decide]
            unfold rowsHit
            constructor
            · rintro (⟨t, ht, hlt, heq, hbit⟩ | ⟨u, hu, hulty, t, ht, hlt, heq, hbit⟩)
              · refine ⟨0, by omega, by omega, t, by omega, by omega, by omega, ?_⟩
                have h1 : addr + row + 0 = addr + row := by omega
                have h2 : (7 : Nat) - t = 8 - 1 - t := by omega
                rw [h1, h2]
                exact hbit
              · refine ⟨u + 1, by omega, by omega, t, by omega, by omega, by omega, ?_⟩
                have h1 : addr + row + (u + 1) = addr + (row + 1) + u := by omega
                rw [h1]
                exact hbit
            · rintro ⟨u, hu, hulty, t, ht, hlt, heq, hbit⟩
              rcases Nat.eq_zero_or_pos u with hu0 | hupos
              · subst hu0
                refine Or.inl ⟨t, by omega, by omega, by omega, ?_⟩
                have h1 : (8 : Nat) - 1 - t = 7 - t := by omega
                have h2 : addr + row + 0 = addr + row := by omega
                rw [h1, ← h2]
                exact hbit
              · refine Or.inr ⟨u - 1, by omega, by omega, t, by omega, by omega, by omega, ?_⟩
                have h1 : addr + (row + 1) + (u - 1) = addr + row + u := by omega
                rw [h1]
                exact hbit
          · intro hcon
            unfold rowsHit at hcon
            obtain ⟨⟨t, ht, hlt, heq, -⟩, ⟨u, hu, hulty, t', ht', hlt', heq', -⟩⟩ := hcon
            omega
        · rw [ihs, hv1]
          have hEiff : rowsColl ram addr (v x % 64) r (row + 1) (posy + 1)
              (drawRowGo 8 (ram (addr + row)) (v x % 64) posy px v).1 ↔
              rowsColl ram addr (v x % 64) r (row + 1) (posy + 1) px := by
            unfold rowsColl
            constructor
            · rintro ⟨u, hu, hulty, t, ht, hlt, hbit, hp⟩
              exact ⟨u, hu, hulty, t, ht, hlt, hbit, by
                rw [← hlater u t hu hulty ht hlt]; exact hp⟩
            · rintro ⟨u, hu, hulty, t, ht, hlt, hbit, hp⟩
              exact ⟨u, hu, hulty, t, ht, hlt, hbit, by
                rw [hlater u t hu hulty ht hlt]; exact hp⟩
          rw [if_congr hEiff rfl rfl]
          by_cases hcoll : ∃ t, t < 8 ∧ v x % 64 + t < 64 ∧
              (ram (addr + row) >>> (8 - 1 - t)) &&& 1 = 1 ∧
              px (v x % 64 + t + posy * 64) = true
          · rw [if_pos hcoll]
            have hout : rowsColl ram addr (v x % 64) (r + 1) row posy px := by
              unfold rowsColl
              obtain ⟨t, ht, hlt, hbit, hp⟩ := hcoll
              refine ⟨0, by omega, by omega, t, by omega, by omega, ?_, ?_⟩
              · have h1 : addr + row + 0 = addr + row := by omega
                have h2 : (7 : Nat) - t = 8 - 1 - t := by omega
                rw [h1, h2]
                exact hbit
              · have h1 : posy + 0 = posy := by omega
                rw [h1]
                exact hp
            rw [if_pos hout]
            by_cases hE : rowsColl ram addr (v x % 64) r (row + 1) (posy + 1) px
            · rw [if_pos hE, updf_idem]
            · rw [if_neg hE]
          · rw [if_neg hcoll]
            congr 1
            rw [eq_iff_iff]
            unfold rowsColl
            constructor
            · rintro ⟨u, hu, hulty, t, ht, hlt, hbit, hp⟩
              refine ⟨u + 1, by omega, by omega, t, by omega, by omega, ?_, ?_⟩
              · have h1 : addr + row + (u + 1) = addr + (row + 1) + u := by omega
                rw [h1]
                exact hbit
              · have h1 : posy + (u + 1) = posy + 1 + u := by omega
                rw [h1]
                exact hp
            · rintro ⟨u, hu, hulty, t, ht, hlt, hbit, hp⟩
              have hupos : 0 < u := by
                rcases Nat.eq_zero_or_pos u with hu0 | hupos
                · subst hu0
                  refine absurd ?_ hcoll
                  refine ⟨t, by omega, by omega, ?_, ?_⟩
                  · have h1 : (8 : Nat) - 1 - t = 7 - t := by omega
                    have h2 : addr + row + 0 = addr + row := by omega
                    rw [h1, ← h2]
                    exact hbit
                  · have h1 : posy + 0 = posy := by omega
                    rw [← h1]
                    exact hp
                · exact hupos
              refine ⟨u - 1, by omega, by omega, t, by omega, by omega, ?_, ?_⟩
              · have h1 : addr + (row + 1) + (u - 1) = addr + row + u := by omega
                rw [h1]
                exact hbit
              · have h1 : posy + 1 + (u - 1) = posy + u := by omega
                rw [h1]
                exact hp
    · rw [if_neg hbound] at h
      exact Option.noConfusion h

/-- C2: when `Dxyn` executes (render flag true), the step succeeds only by
running the sprite draw: every display cell `(cx, cy)` ends XOR-toggled
exactly when some sprite bit lands on it — sprite origin at column
`Vx mod 64` and row `Vy mod 32`, each of the `n` row bytes drawn
most-significant bit first, clipped (not wrapped) at column 64 and row 32 —
and `VF` ends 1 if some drawn bit hit an already-set pixel and 0 otherwise
(it is reset to 0 first, so a collision-free draw leaves `VF = 0`). -/
theorem c2_draw_semantics (s : Chip8State) (δ : Nat) (kp : Chip8Keypad)
    (rand : Nat) (s' : Chip8State)
    (hpc : s.pc + 2 ≤ 4096)
    (hop : opOf (fetchInstr s) = 0xd)
    (hx : xOf (fetchInstr s) ≠ 15)
    (hy : yOf (fetchInstr s) ≠ 15)
    (h : s.update δ kp true rand = some s') :
    (∀ cx cy, cx < 64 → cy < 32 →
      s'.display (cx + cy * 64) = xor (s.display (cx + cy * 64))
        (decide (spriteBitAt s.ram s.i (s.v (xOf (fetchInstr s)) % 64)
          (s.v (yOf (fetchInstr s)) % 32) (nOf (fetchInstr s)) cx cy))) ∧
    (s'.v 15 = if spriteCollAt s.ram s.i (s.v (xOf (fetchInstr s)) % 64)
        (s.v (yOf (fetchInstr s)) % 32) (nOf (fetchInstr s)) s.display
      then 1 else 0) := by
  rw [update_eq_exec s δ kp true rand hpc] at h
  rw [exec_draw_blank _ _ _ _ hop] at h
  dsimp only [afterTimers, DISPLAY_HEIGHT, DISPLAY_WIDTH] at h
  rw [updf_other _ _ _ _ hy] at h
  rcases hdr : drawRows s.ram s.i (xOf (fetchInstr s)) (nOf (fetchInstr s)) 0
      (s.v (yOf (fetchInstr s)) % 32) s.display (updf s.v 15 0) with _ | out
  · rw [hdr] at h
    dsimp only at h
    exact Option.noConfusion h
  · rw [hdr] at h
    dsimp only at h
    injection h with h2
    subst h2
    obtain ⟨hf, hs2⟩ := drawRows_char s.ram s.i (xOf (fetchInstr s)) hx
      (nOf (fetchInstr s)) 0 (s.v (yOf (fetchInstr s)) % 32) s.display
      (updf s.v 15 0) out (Nat.mod_lt _ (by norm_num)) hdr
    rw [updf_other _ _ _ _ hx] at hf hs2
    constructor
    · intro cx cy hcx hcy
      dsimp only
      rw [hf (cx + cy * 64)]
      congr 1
      rw [decide_eq_decide]
      unfold rowsHit spriteBitAt
      constructor
      · rintro ⟨u, hu, hulty, t, ht, hlt, heqidx, hbit⟩
        refine ⟨u, hu, hulty, by omega, t, ht, hlt, by omega, ?_⟩
        have h1 : s.i + u = s.i + 0 + u := by omega
        rw [h1]
        exact hbit
      · rintro ⟨row, hrow, hylt, hcyeq, t, ht, hlt, hcxeq, hbit⟩
        refine ⟨row, hrow, hylt, t, ht, hlt, by omega, ?_⟩
        have h1 : s.i + 0 + row = s.i + row := by omega
        rw [h1]
        exact hbit
    · have hciff : rowsColl s.ram s.i (s.v (xOf (fetchInstr s)) % 64)
          (nOf (fetchInstr s)) 0 (s.v (yOf (fetchInstr s)) % 32) s.display ↔
          spriteCollAt s.ram s.i (s.v (xOf (fetchInstr s)) % 64)
            (s.v (yOf (fetchInstr s)) % 32) (nOf (fetchInstr s)) s.display := by
        unfold rowsColl spriteCollAt
        constructor
        · rintro ⟨u, hu, hulty, t, ht, hlt, hbit, hp⟩
          refine ⟨u, hu, hulty, t, ht, hlt, ?_, hp⟩
          have h1 : s.i + u = s.i + 0 + u := by omega
          rw [h1]
          exact hbit
        · rintro ⟨row, hrow, hylt, t, ht, hlt, hbit, hp⟩
          refine ⟨row, hrow, hylt, t, ht, hlt, ?_, hp⟩
          have h1 : s.i + 0 + row = s.i + row := by omega
          rw [h1]
          exact hbit
      dsimp only
      rw [hs2]
      by_cases hsc : spriteCollAt s.ram s.i (s.v (xOf (fetchInstr s)) % 64)
          (s.v (yOf (fetchInstr s)) % 32) (nOf (fetchInstr s)) s.display
      · rw [if_pos (hciff.mpr hsc), if_pos hsc]
        rfl
      · rw [if_neg (fun hr => hsc (hciff.mp hr)), if_neg hsc]
        rfl


theorem c1_witness :
    (wc1.pc + 2 ≤ 4096) ∧
    (opOf (fetchInstr wc1) = 0xd) ∧
    ((wc1.update 5 kpNone false 7 = some (afterTimers wc1 5)) ∧
     (∀ s', wc1.update 5 kpNone true 7 = some s' →
       s'.pc = wc1.pc + 2 ∧
       ∃ pxv, drawRows wc1.ram wc1.i (xOf (fetchInstr wc1)) (nOf (fetchInstr wc1)) 0
           (updf wc1.v 15 0 (yOf (fetchInstr wc1)) % 32) wc1.display (updf wc1.v 15 0) =
           some pxv ∧
         s'.display = pxv.1 ∧ s'.v = pxv.2)) :=
  ⟨by decide, by decide, c1_draw_render_sync wc1 5 kpNone 7 (by decide) (by decide)⟩

theorem c2_witness :
    (wc2.pc + 2 ≤ 4096) ∧ (opOf (fetchInstr wc2) = 0xd) ∧
    (xOf (fetchInstr wc2) ≠ 15) ∧ (yOf (fetchInstr wc2) ≠ 15) ∧
    (wc2.update 0 kpNone true 0 = some (wupd wc2 0 kpNone true 0)) ∧
    ((∀ cx cy, cx < 64 → cy < 32 →
      (wupd wc2 0 kpNone true 0).display (cx + cy * 64) = xor (wc2.display (cx + cy * 64))
        (decide (spriteBitAt wc2.ram wc2.i (wc2.v (xOf (fetchInstr wc2)) % 64)
          (wc2.v (yOf (fetchInstr wc2)) % 32) (nOf (fetchInstr wc2)) cx cy))) ∧
     ((wupd wc2 0 kpNone true 0).v 15 = if spriteCollAt wc2.ram wc2.i
        (wc2.v (xOf (fetchInstr wc2)) % 64) (wc2.v (yOf (fetchInstr wc2)) % 32)
        (nOf (fetchInstr wc2)) wc2.display then 1 else 0)) :=
  ⟨by decide, by decide, by decide, by decide, by rfl,
   c2_draw_semantics wc2 0 kpNone 0 (wupd wc2 0 kpNone true 0)
     (by decide) (by decide) (by decide) (by decide) (by rfl)⟩

theorem c3_witness :
    (wc3.pc + 2 ≤ 4096) ∧ (opOf (fetchInstr wc3) = 0xf) ∧ (nnOf (fetchInstr wc3) = 0x0a) ∧
    (((∃ k, k < 16 ∧ kpRel3.pressed_last k = true ∧ kpRel3.pressed k = false) →
      ∃ k, k < 16 ∧ kpRel3.pressed_last k = true ∧ kpRel3.pressed k = false ∧
        wc3.update 5 kpRel3 false 0 =
          some { afterTimers wc3 5 with pc := wc3.pc + 2, v := updf wc3.v (xOf (fetchInstr wc3)) k }) ∧
     ((∀ k, k < 16 → ¬(kpRel3.pressed_last k = true ∧ kpRel3.pressed k = false)) →
      wc3.update 5 kpRel3 false 0 = some (afterTimers wc3 5))) :=
  ⟨by decide, by decide, by decide,
   c3_getkey_release_edge wc3 5 kpRel3 false 0 (by decide) (by decide) (by decide)⟩

theorem c4_witness :
    (wc4.update 16668 kpNone false 0 = some (wupd wc4 16668 kpNone false 0)) ∧
    ((wupd wc4 16668 kpNone false 0).elapsed_us = (wc4.elapsed_us + 16668) % 16667 ∧
     (¬(opOf (fetchInstr wc4) = 0xf ∧ nnOf (fetchInstr wc4) = 0x15) →
       (wupd wc4 16668 kpNone false 0).delay_timer =
         wc4.delay_timer - (wc4.elapsed_us + 16668) / 16667) ∧
     (¬(opOf (fetchInstr wc4) = 0xf ∧ nnOf (fetchInstr wc4) = 0x18) →
       (wupd wc4 16668 kpNone false 0).sound_timer =
         wc4.sound_timer - (wc4.elapsed_us + 16668) / 16667)) :=
  ⟨by rfl, c4_timer_accumulator wc4 16668 kpNone false 0 (wupd wc4 16668 kpNone false 0) (by rfl)⟩

theorem c5_witness :
    (¬wc5pc.pc + 2 ≤ 4096) ∧ (wc5un.pc + 2 ≤ 4096) ∧
    (recognizedInstr (fetchInstr wc5un) = false) ∧
    (wc5pc.update 0 kpNone false 0 = none) ∧
    (wc5un.update 0 kpNone false 0 = none) ∧
    (∃ st', pushMany { buffer := fun _ => 0, top := 0 } (List.replicate 64 0) = some st' ∧
      st'.top = 64 ∧ ∀ val, st'.push val = none) ∧
    (({ buffer := fun _ => 0, top := 0 } : Chip8Stack).pop = none) ∧
    (wc5ov.update 0 kpNone false 0 = none) ∧
    (wc5ee.update 0 kpNone false 0 = none) :=
  ⟨by decide, by decide, by decide,
   c5_fatal_conditions.1 wc5pc 0 kpNone false 0 (by decide),
   c5_fatal_conditions.2.1 wc5un 0 kpNone false 0 (by decide) (by decide),
   c5_fatal_conditions.2.2.1 (List.replicate 64 0) (by decide),
   c5_fatal_conditions.2.2.2.1 { buffer := fun _ => 0, top := 0 } rfl,
   c5_fatal_conditions.2.2.2.2.1 wc5ov 0 kpNone false 0 (by decide) (by decide) rfl,
   c5_fatal_conditions.2.2.2.2.2 wc5ee 0 kpNone false 0 (by decide) (by decide) rfl⟩

theorem c6_witness :
    (wc6.pc + 2 ≤ 4096) ∧ (wc6.v (xOf (fetchInstr wc6)) < 256) ∧
    (wc6.v (yOf (fetchInstr wc6)) < 256) ∧
    ((opOf (fetchInstr wc6) = 0x7 → ∀ s', wc6.update 0 kpNone false 0 = some s' →
      s'.v (xOf (fetchInstr wc6)) < 256 ∧
      (s'.v (xOf (fetchInstr wc6)) : ℤ) ≡
        wc6.v (xOf (fetchInstr wc6)) + nnOf (fetchInstr wc6) [ZMOD 256] ∧
      (xOf (fetchInstr wc6) ≠ 15 → s'.v 15 = wc6.v 15)) ∧
    (opOf (fetchInstr wc6) = 0x8 → nOf (fetchInstr wc6) = 0x4 →
      ∀ s', wc6.update 0 kpNone false 0 = some s' →
      s'.v 15 = (if 256 ≤ wc6.v (xOf (fetchInstr wc6)) + wc6.v (yOf (fetchInstr wc6))
        then 1 else 0) ∧
      (xOf (fetchInstr wc6) ≠ 15 → s'.v (xOf (fetchInstr wc6)) < 256 ∧
        (s'.v (xOf (fetchInstr wc6)) : ℤ) ≡
          wc6.v (xOf (fetchInstr wc6)) + wc6.v (yOf (fetchInstr wc6)) [ZMOD 256])) ∧
    (opOf (fetchInstr wc6) = 0x8 → nOf (fetchInstr wc6) = 0x5 →
      ∀ s', wc6.update 0 kpNone false 0 = some s' →
      s'.v 15 = (if wc6.v (xOf (fetchInstr wc6)) < wc6.v (yOf (fetchInstr wc6))
        then 0 else 1) ∧
      (xOf (fetchInstr wc6) ≠ 15 → s'.v (xOf (fetchInstr wc6)) < 256 ∧
        (s'.v (xOf (fetchInstr wc6)) : ℤ) ≡
          (wc6.v (xOf (fetchInstr wc6)) : ℤ) - wc6.v (yOf (fetchInstr wc6)) [ZMOD 256])) ∧
    (opOf (fetchInstr wc6) = 0x8 → nOf (fetchInstr wc6) = 0x7 →
      ∀ s', wc6.update 0 kpNone false 0 = some s' →
      s'.v 15 = (if wc6.v (yOf (fetchInstr wc6)) < wc6.v (xOf (fetchInstr wc6))
        then 0 else 1) ∧
      (xOf (fetchInstr wc6) ≠ 15 → s'.v (xOf (fetchInstr wc6)) < 256 ∧
        (s'.v (xOf (fetchInstr wc6)) : ℤ) ≡
          (wc6.v (yOf (fetchInstr wc6)) : ℤ) - wc6.v (xOf (fetchInstr wc6)) [ZMOD 256]))) :=
  ⟨by decide, by decide, by decide,
   c6_arith_wrap_flags wc6 0 kpNone false 0 (by decide) (by decide) (by decide)⟩

theorem c7_witness :
    (wc7.pc + 2 ≤ 4096) ∧ (opOf (fetchInstr wc7) = 0x8) ∧
    (wc7.v (xOf (fetchInstr wc7)) < 256) ∧ (wc7.v (yOf (fetchInstr wc7)) < 256) ∧
    ((nOf (fetchInstr wc7) = 0x6 → wc7.cosmac_quirks = true →
      ∀ s', wc7.update 0 kpNone false 0 = some s' →
      s'.v 15 = wc7.v (yOf (fetchInstr wc7)) % 2 ∧
      (xOf (fetchInstr wc7) ≠ 15 →
        s'.v (xOf (fetchInstr wc7)) = wc7.v (yOf (fetchInstr wc7)) / 2)) ∧
    (nOf (fetchInstr wc7) = 0x6 → wc7.cosmac_quirks = false →
      ∀ s', wc7.update 0 kpNone false 0 = some s' →
      s'.v 15 = wc7.v (xOf (fetchInstr wc7)) % 2 ∧
      (xOf (fetchInstr wc7) ≠ 15 →
        s'.v (xOf (fetchInstr wc7)) = wc7.v (xOf (fetchInstr wc7)) / 2)) ∧
    (nOf (fetchInstr wc7) = 0xe → wc7.cosmac_quirks = true →
      ∀ s', wc7.update 0 kpNone false 0 = some s' →
      s'.v 15 = wc7.v (yOf (fetchInstr wc7)) / 128 ∧
      (xOf (fetchInstr wc7) ≠ 15 →
        s'.v (xOf (fetchInstr wc7)) = wc7.v (yOf (fetchInstr wc7)) * 2 % 256)) ∧
    (nOf (fetchInstr wc7) = 0xe → wc7.cosmac_quirks = false →
      ∀ s', wc7.update 0 kpNone false 0 = some s' →
      s'.v 15 = wc7.v (xOf (fetchInstr wc7)) / 128 ∧
      (xOf (fetchInstr wc7) ≠ 15 →
        s'.v (xOf (fetchInstr wc7)) = wc7.v (xOf (fetchInstr wc7)) * 2 % 256)) ∧
    ((nOf (fetchInstr wc7) = 0x6 ∨ nOf (fetchInstr wc7) = 0xe) →
      xOf (fetchInstr wc7) ≠ 15 →
      wc7.v (xOf (fetchInstr wc7)) ≠ wc7.v (yOf (fetchInstr wc7)) →
      ∀ st' sf',
        ({ wc7 with cosmac_quirks := true } : Chip8State).update 0 kpNone false 0 =
          some st' →
        ({ wc7 with cosmac_quirks := false } : Chip8State).update 0 kpNone false 0 =
          some sf' →
        (st'.v (xOf (fetchInstr wc7)), st'.v 15) ≠
          (sf'.v (xOf (fetchInstr wc7)), sf'.v 15))) :=
  ⟨by decide, by decide, by decide, by decide,
   c7_shift_quirk_modes wc7 0 kpNone false 0 (by decide) (by decide) (by decide) (by decide)⟩

theorem c8_witness :
    (wc8.pc + 2 ≤ 4096) ∧ (opOf (fetchInstr wc8) = 0xf) ∧ (nnOf (fetchInstr wc8) = 0x1e) ∧
    (wc8.i < 4096) ∧ (wc8.v (xOf (fetchInstr wc8)) < 256) ∧
    (wc8.update 0 kpNone false 0 = some (wupd wc8 0 kpNone false 0)) ∧
    ((4096 ≤ wc8.i + wc8.v (xOf (fetchInstr wc8)) →
      (wupd wc8 0 kpNone false 0).v 15 = 1 ∧
      (wupd wc8 0 kpNone false 0).i = (wc8.i + wc8.v (xOf (fetchInstr wc8))) % 4096) ∧
     (wc8.i + wc8.v (xOf (fetchInstr wc8)) < 4096 →
      (wupd wc8 0 kpNone false 0).i = wc8.i + wc8.v (xOf (fetchInstr wc8)) ∧
      (wupd wc8 0 kpNone false 0).v = wc8.v)) :=
  ⟨by decide, by decide, by decide, by decide, by decide, by rfl,
   c8_fx1e_overflow wc8 0 kpNone false 0 (wupd wc8 0 kpNone false 0)
     (by decide) (by decide) (by decide) (by decide) (by decide) (by rfl)⟩

theorem c9_witness :
    (wc9.pc + 2 ≤ 4096) ∧
    (wc9.update 0 kpNone false 0 = some (wupd wc9 0 kpNone false 0)) ∧
    ((opOf (fetchInstr wc9) = 0xf → nnOf (fetchInstr wc9) = 0x1e →
        (wupd wc9 0 kpNone false 0).i < 4096) ∧
     (opOf (fetchInstr wc9) = 0xa → (wupd wc9 0 kpNone false 0).i < 4096) ∧
     (opOf (fetchInstr wc9) = 0xf → nnOf (fetchInstr wc9) = 0x55 →
        wc9.cosmac_quirks = true →
        (wupd wc9 0 kpNone false 0).i = wc9.i + xOf (fetchInstr wc9) + 1) ∧
     (opOf (fetchInstr wc9) = 0xf → nnOf (fetchInstr wc9) = 0x65 →
        wc9.cosmac_quirks = true →
        (wupd wc9 0 kpNone false 0).i = wc9.i + xOf (fetchInstr wc9) + 1)) :=
  ⟨by decide, by rfl,
   c9_index_register_wrap wc9 0 kpNone false 0 (wupd wc9 0 kpNone false 0)
     (by decide) (by rfl)⟩

theorem c10_witness :
    (wc1.pc + 2 ≤ 4096) ∧
    ((opOf (fetchInstr wc1) = 0xd → wc1.update 5 kpNone false 3 = some (afterTimers wc1 5)) ∧
     (opOf (fetchInstr wc1) = 0xf → nnOf (fetchInstr wc1) = 0x0a →
       (∀ k, k < 16 → ¬(kpNone.pressed_last k = true ∧ kpNone.pressed k = false)) →
       ∀ bl, wc1.update 5 kpNone bl 3 = some (afterTimers wc1 5))) :=
  ⟨by decide, c10_blocked_frame wc1 5 kpNone 3 (by decide)⟩


/-- C2 counterexample: a `Dxyn` draw with `x = 15` (instruction `DF02`,
sprite rows `0xDF, 0x02`, one preset pixel at index 1).  Under the claim's
fixed origin — column `Vx mod 64`, here 0 — the sprite bit of row 1 lands
on cell (6, 1) and no bit lands on (7, 1), so with both cells initially
clear the claim predicts (6, 1) set and (7, 1) clear after the step.  The
actual step ends with (6, 1) clear and (7, 1) set: the row-0 collision
writes 1 into `v[15]`, and the code re-reads `v[x] = v[15]` as the start
column of row 1, shifting it to column 1. -/
theorem c2_counterexample :
    opOf (fetchInstr wc2x) = 0xd ∧
    xOf (fetchInstr wc2x) = 15 ∧
    spriteBitAt wc2x.ram wc2x.i (wc2x.v (xOf (fetchInstr wc2x)) % 64)
      (wc2x.v (yOf (fetchInstr wc2x)) % 32) (nOf (fetchInstr wc2x)) 6 1 ∧
    ¬spriteBitAt wc2x.ram wc2x.i (wc2x.v (xOf (fetchInstr wc2x)) % 64)
      (wc2x.v (yOf (fetchInstr wc2x)) % 32) (nOf (fetchInstr wc2x)) 7 1 ∧
    wc2x.display (6 + 1 * 64) = false ∧
    wc2x.display (7 + 1 * 64) = false ∧
    (wc2x.update 0 kpNone true 0).map
      (fun t => (t.display (6 + 1 * 64), t.display (7 + 1 * 64))) =
      some (false, true) := by
  decide
